import Mathlib

set_option maxHeartbeats 1000000
set_option maxRecDepth 8000

unseal List.merge List.mergeSort

/-!
# A verification model of `ckdu` (a small `du` clone in C)

This file gives a shallow embedding of `src/ckdu.c` (the most complete
evolution of the program; `src/unnamed/part_000` is an earlier evolution of
the same file and is noted where the two differ) and proves properties of
the embedding.

Modelling conventions (LP64, Linux):
* `dev_t`, `ino_t` are 64-bit unsigned integers, modelled as `ℕ` (values
  `< 2^64`); `off_t` and `long` are 64-bit signed, modelled as `ℤ`;
  `int` is 32-bit signed.  Where the C code converts a 64-bit value to
  `int`, the model truncates explicitly (`toInt32`).
* C strings are modelled as `String`; `strcmp` compares code points, which
  agrees in sign with byte-wise comparison of the UTF-8 encodings.
* The glibc `tsearch`/`tfind` binary tree is modelled as the list of
  inserted keys, with lookup by comparator equality (`tfind` succeeds
  exactly when some inserted key compares equal to the probe key).
* `stderr` output is modelled as a list of `Report` values in emission
  order; `stdout` as a list of printed lines.
-/

namespace Ckdu

/-! ## Machine integer truncation -/

/-- Truncation of a mathematical integer to a 32-bit two's-complement `int`. -/
def toInt32 (z : ℤ) : ℤ := (z + 2 ^ 31) % 2 ^ 32 - 2 ^ 31

theorem toInt32_emod64 (z : ℤ) : toInt32 (z % 2 ^ 64) = toInt32 z := by
  unfold toInt32; omega

theorem toInt32_eq_zero_iff (z : ℤ) : toInt32 z = 0 ↔ z % 2 ^ 32 = 0 := by
  unfold toInt32; omega

theorem toInt32_eq_self {z : ℤ} (h1 : -(2 ^ 31) ≤ z) (h2 : z < 2 ^ 31) : toInt32 z = z := by
  unfold toInt32; omega

/-! ## `compare_trees_id_wise` and the inode pool (`add_to_pool`)

`ckdu.c` lines 260-287.  The comparator subtracts the 64-bit unsigned
`st_dev` (resp. `st_ino`) fields; the unsigned 64-bit difference is then
converted to `int`, which keeps only the low 32 bits. -/

/-- The `int`-valued result of `a - b` where `a b : dev_t` (or `ino_t`),
i.e. unsigned 64-bit subtraction followed by conversion to `int`. -/
def diffU64toInt (a b : ℕ) : ℤ := toInt32 (((a : ℤ) - (b : ℤ)) % 2 ^ 64)

/-- `compare_trees_id_wise` from `ckdu.c`: compare by device, then inode. -/
def compare_trees_id_wise (a b : ℕ × ℕ) : ℤ :=
  let dev_diff := diffU64toInt a.1 b.1
  if dev_diff ≠ 0 then dev_diff else diffU64toInt a.2 b.2

/-- Comparator equality of two (device, inode) pairs, as used by
`tfind`/`tsearch` with `compare_trees_id_wise`. -/
def idEq (a b : ℕ × ℕ) : Bool := compare_trees_id_wise a b == 0

/-- `tfind` on the pool: some inserted key compares equal to `key`. -/
def poolMem (pool : List (ℕ × ℕ)) (key : ℕ × ℕ) : Bool :=
  pool.any (fun p => idEq key p)

/-- `add_to_pool` from `ckdu.c`: returns `false` and leaves the pool
unchanged if the key is found, otherwise inserts it and returns `true`. -/
def add_to_pool (pool : List (ℕ × ℕ)) (key : ℕ × ℕ) : Bool × List (ℕ × ℕ) :=
  if poolMem pool key then (false, pool) else (true, pool ++ [key])

/-- A sequence of `add_to_pool` calls starting from the given pool,
returning the list of boolean results in order. -/
def runPool (pool : List (ℕ × ℕ)) : List (ℕ × ℕ) → List Bool
  | [] => []
  | p :: ps => (add_to_pool pool p).1 :: runPool (add_to_pool pool p).2 ps

/-- Folding a list of registrations into a pool, ignoring the results. -/
def regFold (P : List (ℕ × ℕ)) : List (ℕ × ℕ) → List (ℕ × ℕ)
  | [] => P
  | r :: rs => regFold (add_to_pool P r).2 rs

/-! ## `strcmp` -/

/-- Byte-wise C `strcmp`, modelled on code-point lists and normalised to
`-1`/`0`/`1` (only the sign of `strcmp`'s result is ever consumed). -/
def strcmpL : List Char → List Char → ℤ
  | [], [] => 0
  | [], _ :: _ => -1
  | _ :: _, [] => 1
  | a :: as, b :: bs =>
    if a.toNat < b.toNat then -1 else if b.toNat < a.toNat then 1 else strcmpL as bs

def strcmp (a b : String) : ℤ := strcmpL a.data b.data

/-! ## File modes -/

def S_IFMT : ℕ := 0xF000
def S_IFDIR : ℕ := 0x4000
def S_IFREG : ℕ := 0x8000
def S_IFLNK : ℕ := 0xA000

/-- The `S_ISDIR` mode-bit test. -/
def S_ISDIR (m : ℕ) : Bool := m &&& S_IFMT == S_IFDIR

/-! ## Tree nodes (`ckdu_tree_entry`)

The C struct stores a name, the stat identity/size/mode, a sibling link and
(for directories, but initialised for every entry) a first-child link and
the accumulated `add_content_size`.  The sibling chain is modelled as
`List Node` held by the parent. -/

inductive Node : Type where
  | mk (name : String) (device : ℕ) (inode : ℕ) (content_size : ℤ) (mode : ℕ)
      (child : List Node) (add_content_size : ℤ) : Node

def Node.name : Node → String
  | .mk n _ _ _ _ _ _ => n

def Node.device : Node → ℕ
  | .mk _ d _ _ _ _ _ => d

def Node.inode : Node → ℕ
  | .mk _ _ i _ _ _ _ => i

def Node.content_size : Node → ℤ
  | .mk _ _ _ s _ _ _ => s

def Node.mode : Node → ℕ
  | .mk _ _ _ _ m _ _ => m

def Node.child : Node → List Node
  | .mk _ _ _ _ _ c _ => c

def Node.add_content_size : Node → ℤ
  | .mk _ _ _ _ _ _ a => a

/-- `is_dir` from `ckdu.c`. -/
def is_dir (v : Node) : Bool := S_ISDIR v.mode

/-! ## The filesystem oracle

`stat`/`opendir`/`readdir` are external collaborators; a subtree of the
filesystem, together with the outcomes the platform would report for it
during this run, is modelled as one `FSTree` value per directory entry:

* `meta` is what `lstat` reports for the entry itself;
* `targetMeta` is what `stat` would report instead when the entry is a
  symbolic link (`none` for non-links);
* `statErr` (an `errno`): `lstat` on this entry fails;
* `openErr` (an `errno`): `opendir` on this entry's path fails;
* `children` are the entries `readdir` yields, in enumeration order
  (including any `.`/`..` pseudo-entries one wishes to model);
* `readdirErr` (an `errno`): after the listed children, `readdir` fails
  instead of reporting end-of-stream. -/

structure Meta where
  device : ℕ
  inode : ℕ
  size : ℤ
  mode : ℕ
deriving DecidableEq

inductive FSTree : Type where
  | mk (name : String) (meta : Meta) (targetMeta : Option Meta) (statErr : Option ℕ)
      (openErr : Option ℕ) (children : List FSTree) (readdirErr : Option ℕ) : FSTree

def FSTree.name : FSTree → String
  | .mk n _ _ _ _ _ _ => n

def FSTree.meta : FSTree → Meta
  | .mk _ m _ _ _ _ _ => m

def FSTree.targetMeta : FSTree → Option Meta
  | .mk _ _ t _ _ _ _ => t

def FSTree.statErr : FSTree → Option ℕ
  | .mk _ _ _ s _ _ _ => s

def FSTree.openErr : FSTree → Option ℕ
  | .mk _ _ _ _ o _ _ => o

def FSTree.children : FSTree → List FSTree
  | .mk _ _ _ _ _ c _ => c

def FSTree.readdirErr : FSTree → Option ℕ
  | .mk _ _ _ _ _ _ r => r

/-- `lstat(2)`: attributes of the entry itself, never of a link's target.
`ckdu.c`'s `initialize_tree_entry` calls `lstat`. -/
def lstatMeta (t : FSTree) : Meta := t.meta

/-- `stat(2)`: attributes of the link target for symbolic links (used by
the earlier evolution `src/unnamed/part_000`, not by `ckdu.c`). -/
def statMeta (t : FSTree) : Meta :=
  match t.targetMeta with
  | some m => m
  | none => t.meta

/-! ## Error reporting (`print_error` and the `describe_*` tables)

`errno` values are the Linux ones.  `print_error` writes
`Error <name>(<code>) occured when <action> "<dir>/<base>": <description>`
to stderr; a report is modelled structurally plus a `line` rendering. -/

def EACCES : ℕ := 13
def ELOOP : ℕ := 40
def ENOENT : ℕ := 2
def ENOTDIR : ℕ := 20
def EMFILE : ℕ := 24
def ENAMETOOLONG : ℕ := 36
def ENFILE : ℕ := 23
def EOVERFLOW : ℕ := 75
def EBADF : ℕ := 9
def EIO : ℕ := 5

structure Report where
  constName : String
  code : ℕ
  action : String
  dirname : String
  basename : String
  desc : String
deriving DecidableEq

/-- The stderr line written by `print_error` (with `basename` already
replaced by `""` when the C code passes `NULL`). -/
def Report.line (r : Report) : String :=
  "Error " ++ r.constName ++ "(" ++ toString r.code ++ ") occured when " ++ r.action ++
    " \"" ++ r.dirname ++ "/" ++ r.basename ++ "\": " ++ r.desc

def default_error : String × String := ("E???", "Unknown error")

def describe_opendir_error (code : ℕ) : String × String :=
  if code = EACCES then ("EACCES", "Search permission is denied for the component of the path prefix of dirname or read permission is denied for dirname.")
  else if code = ELOOP then ("ELOOP", "Too many symbolic links were encountered in resolving path.")
  else if code = ENOENT then ("ENOENT", "A component of dirname does not name an existing directory or dirname is an empty string.")
  else if code = ENOTDIR then ("ENOTDIR", "A component of dirname is not a directory.")
  else if code = EMFILE then ("EMFILE", "{OPEN_MAX} file descriptors are currently open in the calling process. ")
  else if code = ENAMETOOLONG then ("ENAMETOOLONG", "Pathname resolution of a symbolic link produced an intermediate result whose length exceeds {PATH_MAX}.")
  else if code = ENFILE then ("ENFILE", "Too many files are currently open in the system.")
  else default_error

def describe_readdir_error (code : ℕ) : String × String :=
  if code = EOVERFLOW then ("EOVERFLOW", "One of the values in the structure to be returned cannot be represented correctly.")
  else if code = EBADF then ("EBADF", "The dirp argument does not refer to an open directory stream.")
  else if code = ENOENT then ("ENOENT", "The current position of the directory stream is invalid.")
  else default_error

def describe_stat_error (code : ℕ) : String × String :=
  if code = EACCES then ("EACCES", "Search permission is denied for a component of the path prefix.")
  else if code = EIO then ("EIO", "An error occurred while reading from the file system.")
  else if code = ENOENT then ("ENOENT", "A component of path does not name an existing file or path is an empty string.")
  else if code = ENOTDIR then ("ENOTDIR", "A component of the path prefix is not a directory.")
  else if code = ELOOP then ("ELOOP", "More than {SYMLOOP_MAX} symbolic links were encountered during resolution of the path argument.")
  else if code = ENAMETOOLONG then ("ENAMETOOLONG", "As a result of encountering a symbolic link in resolution of the path argument, the length of the substituted pathname string exceeded {PATH_MAX}.")
  else if code = EOVERFLOW then ("EOVERFLOW", "A value to be stored would overflow one of the members of the stat structure. ")
  else default_error

def handle_stat_error (code : ℕ) (dirname basename : String) : Report :=
  let cd := describe_stat_error code
  ⟨cd.1, code, "statting", dirname, basename, cd.2⟩

def handle_readdir_error (code : ℕ) (dirname : String) : Report :=
  let cd := describe_readdir_error code
  ⟨cd.1, code, "reading", dirname, "", cd.2⟩

def handle_opendir_error (code : ℕ) (dirname : String) : Report :=
  let cd := describe_opendir_error code
  ⟨cd.1, code, "opening", dirname, "", cd.2⟩

/-! ## `malloc_path_join` -/

def malloc_path_join (dirname basename : String) : String :=
  dirname ++ "/" ++ basename

/-! ## `compare_siblings` and `sort_siblings`

`ckdu.c` lines 204-258.  The size tie-break computes the `off_t` sums
`content_size + add_content_size` (exact for executions without signed
overflow), subtracts them, and assigns the difference to an `int`,
truncating to 32 bits.  The name tie-break returns `strcmp`'s value, of
which only the sign is consumed. -/

/-- The displayed/compared total of an entry: `content_size` plus the
(always-initialised) `add_content_size`. -/
def totalContent (v : Node) : ℤ := v.content_size + v.add_content_size

def compare_siblings (a b : Node) : ℤ :=
  let diff_dir : ℤ := (if is_dir b then 1 else 0) - (if is_dir a then 1 else 0)
  if diff_dir ≠ 0 then diff_dir
  else
    let diff_size := toInt32 (totalContent b - totalContent a)
    if diff_size ≠ 0 then diff_size else strcmp a.name b.name

/-- `qsort` with `compare_siblings`, modelled as a sort with respect to the
comparator (any `qsort` result is a permutation ordered by the comparator;
for the inputs considered by the theorems below the comparator is a strict
total order, making that result unique). -/
def sort_siblings (l : List Node) : List Node :=
  l.mergeSort (fun a b => compare_siblings a b ≤ 0)

/-- Pairwise size constraint under which the `int` truncation of the
`off_t` size difference in `compare_siblings` is lossless. -/
def sizeOK (a b : Node) : Prop := |totalContent a - totalContent b| < 2 ^ 31

instance : ∀ a b, Decidable (sizeOK a b) := fun a b => by
  unfold sizeOK; infer_instance

/-! ## `crawl_tree`

`ckdu.c` lines 289-346.  For a directory at `dirname` described by `t`:
open it (failure: report and return), enumerate the children in order
(skipping `.` and `..`; a failing `lstat` reports and skips the entry;
note that a mid-stream `readdir` failure is reported through
`handle_opendir_error`, not `handle_readdir_error`), recurse into
subdirectories before registering each entry's (device, inode) in the
pool, and accumulate newly-registered entries' sizes into the parent's
`add_content_size`; finally sort the collected children.

The fold over one directory's entries is `crawl_children`; it returns the
nodes in enumeration order, the final pool, the reports in emission order
and the accumulated size contribution. -/

structure ChildrenOut where
  nodes : List Node
  pool : List (ℕ × ℕ)
  errs : List Report
  addSum : ℤ

mutual

def crawl_tree (root : Node) (pool : List (ℕ × ℕ)) (dirname : String) (t : FSTree) :
    Node × List (ℕ × ℕ) × List Report :=
  match t with
  | .mk _ _ _ _ (some e) _ _ => (root, pool, [handle_opendir_error e dirname])
  | .mk _ _ _ _ none cs re =>
    let out := crawl_children dirname cs pool
    let errs := out.errs ++ (match re with
      | some e => [handle_opendir_error e dirname]
      | none => [])
    let child' := match out.nodes with
      | [] => root.child
      | _ => sort_siblings out.nodes
    (Node.mk root.name root.device root.inode root.content_size root.mode child'
      (root.add_content_size + out.addSum), out.pool, errs)

def crawl_children (dirname : String) (cs : List FSTree) (pool : List (ℕ × ℕ)) :
    ChildrenOut :=
  match cs with
  | [] => ⟨[], pool, [], 0⟩
  | c :: rest =>
    if c.name == "." || c.name == ".." then crawl_children dirname rest pool
    else
      match c.statErr with
      | some e =>
        let restOut := crawl_children dirname rest pool
        ⟨restOut.nodes, restOut.pool, handle_stat_error e dirname c.name :: restOut.errs,
          restOut.addSum⟩
      | none =>
        let m := lstatMeta c
        let node0 := Node.mk c.name m.device m.inode m.size m.mode [] 0
        let r1 := if is_dir node0 then
            crawl_tree node0 pool (malloc_path_join dirname c.name) c
          else (node0, pool, [])
        let node1 := r1.1
        let p2 := add_to_pool r1.2.1 (node1.device, node1.inode)
        let contrib := if p2.1 then
            node1.content_size + (if is_dir node1 then node1.add_content_size else 0)
          else 0
        let restOut := crawl_children dirname rest p2.2
        ⟨node1 :: restOut.nodes, restOut.pool, r1.2.2 ++ restOut.errs,
          contrib + restOut.addSum⟩

end

/-- The processing of a single enumerated entry inside `crawl_tree`'s loop
(`none` node: the entry was skipped or its `lstat` failed). -/
structure EntryOut where
  res : Option Node
  pool : List (ℕ × ℕ)
  errs : List Report
  contrib : ℤ

def crawl_entry (dirname : String) (c : FSTree) (pool : List (ℕ × ℕ)) : EntryOut :=
  if c.name == "." || c.name == ".." then ⟨none, pool, [], 0⟩
  else
    match c.statErr with
    | some e => ⟨none, pool, [handle_stat_error e dirname c.name], 0⟩
    | none =>
      let m := lstatMeta c
      let node0 := Node.mk c.name m.device m.inode m.size m.mode [] 0
      let r1 := if is_dir node0 then
          crawl_tree node0 pool (malloc_path_join dirname c.name) c
        else (node0, pool, [])
      let node1 := r1.1
      let p2 := add_to_pool r1.2.1 (node1.device, node1.inode)
      let contrib := if p2.1 then
          node1.content_size + (if is_dir node1 then node1.add_content_size else 0)
        else 0
      ⟨some node1, p2.2, r1.2.2, contrib⟩

/-! ## `malloc_humanize`

`ckdu.c` lines 79-101.  The byte count (`off_t`) is converted to `double`
and repeatedly divided by 1024 while it exceeds 1024; the result is
printed as `%6.1f` followed by a three-character unit.

All the `double` arithmetic after the initial conversion is exact: 1024 is
a power of two, so each division only decrements the exponent, and the
comparison against 1024 is exact.  The only rounding happens when the
integer byte count is converted to `double` (round to nearest, ties to
even, at 53 significand bits), which `roundDouble` reproduces; the loop on
the converted value `d` therefore stops at the first `k` with
`d ≤ 1024 ^ (k + 1)`. -/

/-- Fuel-driven binary logarithm (`⌊log₂ n⌋` for `0 < n < 2 ^ fuel`). -/
def log2fuel : ℕ → ℕ → ℕ
  | 0, _ => 0
  | f + 1, n => if 2 ≤ n then log2fuel f (n / 2) + 1 else 0

def log2b (n : ℕ) : ℕ := log2fuel 64 n

/-- Round a natural number to 53 significand bits (round to nearest, ties
to even): the value of `(double)n` for `n < 2 ^ 64`.  For `n ≥ 2 ^ 53` the
low `s = ⌊log₂ n⌋ - 52` bits are rounded away (`q` is the quotient, `r`
the remainder, `2 ^ (s - 1)` the halfway point). -/
def roundDouble (n : ℕ) : ℕ :=
  if n < 2 ^ 53 then n
  else
    (if 2 ^ (log2b n - 52 - 1) < n % 2 ^ (log2b n - 52) ∨
        (n % 2 ^ (log2b n - 52) = 2 ^ (log2b n - 52 - 1) ∧ (n / 2 ^ (log2b n - 52)) % 2 = 1)
      then n / 2 ^ (log2b n - 52) + 1
      else n / 2 ^ (log2b n - 52)) * 2 ^ (log2b n - 52)

/-- The value of `(double)z` for an `off_t` `z`. -/
def doubleOf (z : ℤ) : ℤ :=
  if z < 0 then -(roundDouble z.natAbs : ℤ) else (roundDouble z.toNat : ℤ)

/-- The division loop of `malloc_humanize` on the converted value `d`:
starting from `k` scalings, keep dividing while `d / 1024 ^ k > 1024`,
i.e. while `1024 ^ (k + 1) < d`; returns the final number of scalings. -/
def humExpSteps (d : ℤ) : ℕ → ℕ → ℕ
  | 0, k => k
  | fuel + 1, k => if 1024 ^ (k + 1) < d then humExpSteps d fuel (k + 1) else k

/-- The final value of the `exponent` variable of `malloc_humanize`
(starts at 1, incremented per division). -/
def humanize_exponent (z : ℤ) : ℕ := 1 + humExpSteps (doubleOf z) 62 0

/-- The `units` table (`units[0]` is `NULL` in C and never read). -/
def units : List String := ["", "  B", "kiB", "MiB", "GiB", "TiB", "PiB", "EiB"]

/-- Left-pad with spaces to the given width (no-op when already wider). -/
def padLeft (s : String) (w : ℕ) : String :=
  String.mk (List.replicate (w - s.length) ' ') ++ s

/-- The value `d / 1024 ^ k` rounded to a whole number of tenths
(round to nearest, ties to even). -/
def tenths (d : ℤ) (k : ℕ) : ℤ :=
  let D : ℤ := 1024 ^ k
  let t10 := 10 * d
  let q := t10 / D
  let r := t10 % D
  if D < 2 * r then q + 1 else if 2 * r < D then q else if q % 2 = 0 then q else q + 1

/-- `sprintf("%6.1f", x)` for the exact value `x = d / 1024 ^ k`: the
correctly rounded (ties to even) one-fractional-digit decimal, right
justified in a field of width at least 6.  (Faithful for `0 ≤ d`, the only
case exercised by the theorems below.) -/
def formatFixed1 (d : ℤ) (k : ℕ) : String :=
  padLeft (toString (tenths d k / 10) ++ "." ++ toString ((tenths d k) % 10).toNat) 6

def malloc_humanize (z : ℤ) : String :=
  let e := humanize_exponent z
  formatFixed1 (doubleOf z) (e - 1) ++ (units.getD e "")

/-! ## `is_boring_folder` and the renderer (`present_tree_indent`)

`ckdu.c` lines 348-397.  Each node prints one line
`%9s%s %s%s\n` = padded humanized size, indent, space, name, `/` for
directories; a directory with children either recurses with an indent
lengthened by two spaces, or — when its basename is blacklisted — prints a
single ellipsis placeholder line instead. -/

def is_boring_folder (basename : String) : Bool :=
  basename == "autom4te.cache" || basename == ".git" || basename == ".svn" ||
    basename == "CVS"

def spaces (k : ℕ) : String := String.mk (List.replicate k ' ')

/-- The size displayed for a node: its own `content_size` plus, for
directories, its `add_content_size` (no dependence on the inode pool). -/
def display_size (v : Node) : ℤ :=
  v.content_size + (if is_dir v then v.add_content_size else 0)

/-- The stdout line the renderer prints for one node. -/
def present_line (v : Node) (indent : String) : String :=
  padLeft (malloc_humanize (display_size v)) 9 ++ indent ++ " " ++ v.name ++
    (if is_dir v then "/" else "")

/-- The ellipsis placeholder line for a collapsed boring directory. -/
def ellipsis_line (child_indent : String) : String :=
  padLeft "..." 9 ++ child_indent ++ " " ++ "..."

mutual

def present_tree_indent (v : Node) (indent : String) : List String :=
  match v with
  | .mk name dev ino csz mode child add =>
    present_line (Node.mk name dev ino csz mode child add) indent ::
      (if S_ISDIR mode && !child.isEmpty then
        let child_indent := spaces (indent.length + 2)
        if is_boring_folder name then [ellipsis_line child_indent]
        else present_children child child_indent
      else [])

def present_children : List Node → String → List String
  | [], _ => []
  | c :: cs, child_indent =>
    present_tree_indent c child_indent ++ present_children cs child_indent

end

def present_tree (v : Node) : List String := present_tree_indent v ""

/-! ## `main`

`ckdu.c` lines 403-417.  The root is probed with
`initialize_tree_entry(&pwd_entry, path, ".")`; on failure the stat error
is reported and the process exits with status 1, before any traversal or
rendering; otherwise the tree is crawled from an empty pool, rendered, and
the process exits with status 0.  (The earlier evolution
`src/unnamed/part_000` ignores the probe result and always returns 0;
`ckdu.c` is modelled.)  The root-probe outcome is carried by the root
`FSTree`'s own `statErr`/`meta` fields. -/

def main_model (path : String) (t : FSTree) : ℕ × List String × List Report :=
  match t.statErr with
  | some e => (1, [], [handle_stat_error e path "."])
  | none =>
    let m := lstatMeta t
    let root := Node.mk "." m.device m.inode m.size m.mode [] 0
    let out := crawl_tree root [] path t
    (0, present_tree out.1, out.2.2)

/-! ## Specification-side definitions

These are written from the *specification's* wording, to be compared with
the crawl: the order in which (device, inode) pairs are encountered (each
entry is registered once, directly after its own subtree), and the
aggregate a directory should have — the sum of `content_size` (plus nested
aggregate for subdirectories) over its children, counting a child only if
its pair is distinct from every previously encountered pair. -/

mutual

/-- The (device, inode) registrations performed while the crawl processes
one enumerated entry, in order: the entry's subtree first (directories
only), then the entry itself; skipped and unprobed entries register
nothing. -/
def entryRegs : FSTree → List (ℕ × ℕ)
  | .mk name m _ se oe cs _ =>
    if name == "." || name == ".." then []
    else
      match se with
      | some _ => []
      | none =>
        (if S_ISDIR m.mode then
          (match oe with
            | some _ => []
            | none => listRegs cs)
        else []) ++ [(m.device, m.inode)]

def listRegs : List FSTree → List (ℕ × ℕ)
  | [] => []
  | c :: rest => entryRegs c ++ listRegs rest

end

/-- The registrations performed while crawling the listing of a directory
(nothing if it cannot be opened). -/
def dirRegs (t : FSTree) : List (ℕ × ℕ) :=
  match t with
  | .mk _ _ _ _ (some _) _ _ => []
  | .mk _ _ _ _ none cs _ => listRegs cs

mutual

/-- The specified contribution of one enumerated entry to its parent's
aggregate, given the list `B` of previously encountered pairs: zero if
skipped, unprobed, or if its (device, inode) pair was already encountered
(in `B` or during its own subtree); otherwise its `content_size` plus, for
a directory, the specified aggregate of its subtree. -/
def specContrib : FSTree → List (ℕ × ℕ) → ℤ
  | .mk name m _ se oe cs _, B =>
    if name == "." || name == ".." then 0
    else
      match se with
      | some _ => 0
      | none =>
        let sub : List (ℕ × ℕ) := match oe with
          | some _ => []
          | none => listRegs cs
        if (m.device, m.inode) ∈ B ++ (if S_ISDIR m.mode then sub else []) then 0
        else
          m.size + (if S_ISDIR m.mode then
            (match oe with
              | some _ => 0
              | none => specAggList cs B)
          else 0)

def specAggList : List FSTree → List (ℕ × ℕ) → ℤ
  | [], _ => 0
  | c :: rest, B => specContrib c B + specAggList rest (B ++ entryRegs c)

end

/-- The specified aggregate of a directory, given previously encountered
pairs `B`: the sum over its enumerated children of their specified
contributions, threading the encountered pairs left to right. -/
def specAgg (t : FSTree) (B : List (ℕ × ℕ)) : ℤ :=
  match t with
  | .mk _ _ _ _ (some _) _ _ => 0
  | .mk _ _ _ _ none cs _ => specAggList cs B

/-- The names of the entries of a listing that become tree nodes
(not `.`/`..`, successfully probed), in enumeration order. -/
def okNames : List FSTree → List String
  | [] => []
  | c :: rest =>
    (match c with
      | .mk name _ _ se _ _ _ =>
        if name == "." || name == ".." then []
        else
          match se with
          | some _ => []
          | none => [name]) ++ okNames rest

/-- Device and inode both below `2 ^ 32`: the range on which
`compare_trees_id_wise`'s truncated comparison distinguishes exactly the
distinct pairs. -/
def BoundedPair (p : ℕ × ℕ) : Prop := p.1 < 2 ^ 32 ∧ p.2 < 2 ^ 32

instance : DecidablePred BoundedPair := fun p => by
  unfold BoundedPair; infer_instance

/-! ## Helper lemmas: the identity comparator and the pool -/

theorem diffU64toInt_eq_zero_iff (a b : ℕ) :
    diffU64toInt a b = 0 ↔ a % 2 ^ 32 = b % 2 ^ 32 := by
  unfold diffU64toInt
  rw [toInt32_emod64, toInt32_eq_zero_iff]
  omega

/-- Comparator equality is component-wise congruence modulo `2 ^ 32`. -/
theorem idEq_iff (a b : ℕ × ℕ) :
    idEq a b = true ↔ (a.1 % 2 ^ 32 = b.1 % 2 ^ 32 ∧ a.2 % 2 ^ 32 = b.2 % 2 ^ 32) := by
  unfold idEq compare_trees_id_wise
  by_cases h : diffU64toInt a.1 b.1 = 0
  · simp only [h, ne_eq, not_true_eq_false, if_false, beq_iff_eq]
    rw [diffU64toInt_eq_zero_iff] at h
    rw [diffU64toInt_eq_zero_iff]
    tauto
  · simp only [ne_eq, h, not_false_eq_true, if_true, beq_iff_eq, h]
    rw [diffU64toInt_eq_zero_iff] at h
    tauto

theorem idEq_symm (a b : ℕ × ℕ) : idEq a b = idEq b a := by
  by_cases h : idEq a b = true
  · have h' := (idEq_iff a b).1 h
    rw [h, Eq.symm ((idEq_iff b a).2 ⟨h'.1.symm, h'.2.symm⟩)]
  · have h2 : ¬ idEq b a = true := by
      intro hba
      exact h ((idEq_iff a b).2 ⟨((idEq_iff b a).1 hba).1.symm, ((idEq_iff b a).1 hba).2.symm⟩)
    simp only [Bool.not_eq_true] at h h2
    rw [h, h2]

theorem idEq_trans {a b c : ℕ × ℕ} (h1 : idEq a b = true) (h2 : idEq b c = true) :
    idEq a c = true := by
  rw [idEq_iff] at h1 h2 ⊢
  exact ⟨h1.1.trans h2.1, h1.2.trans h2.2⟩

theorem idEq_eq_iff {a b : ℕ × ℕ} (ha : BoundedPair a) (hb : BoundedPair b) :
    idEq a b = true ↔ a = b := by
  rw [idEq_iff, Nat.mod_eq_of_lt ha.1, Nat.mod_eq_of_lt ha.2, Nat.mod_eq_of_lt hb.1,
    Nat.mod_eq_of_lt hb.2, Prod.ext_iff]

theorem poolMem_append (P Q : List (ℕ × ℕ)) (k : ℕ × ℕ) :
    poolMem (P ++ Q) k = (poolMem P k || poolMem Q k) := by
  unfold poolMem
  exact List.any_append

theorem poolMem_iff_exists (P : List (ℕ × ℕ)) (k : ℕ × ℕ) :
    poolMem P k = true ↔ ∃ p ∈ P, idEq k p = true := by
  unfold poolMem
  simp [List.any_eq_true]

theorem poolMem_add_to_pool (P : List (ℕ × ℕ)) (r k : ℕ × ℕ) :
    poolMem (add_to_pool P r).2 k = (poolMem P k || idEq k r) := by
  by_cases h : poolMem P r = true
  · have hP : (add_to_pool P r).2 = P := by unfold add_to_pool; rw [if_pos h]
    rw [hP]
    by_cases hkr : idEq k r = true
    · have h2 : poolMem P k = true := by
        obtain ⟨p, hp, hrp⟩ := (poolMem_iff_exists P r).1 h
        exact (poolMem_iff_exists P k).2 ⟨p, hp, idEq_trans hkr hrp⟩
      rw [h2, hkr]
      rfl
    · simp only [Bool.not_eq_true] at hkr
      rw [hkr, Bool.or_false]
  · have hP : (add_to_pool P r).2 = P ++ [r] := by unfold add_to_pool; rw [if_neg h]
    rw [hP, poolMem_append]
    have h1 : poolMem [r] k = idEq k r := by
      unfold poolMem
      simp [List.any_cons]
    rw [h1]

theorem regFold_append (P : List (ℕ × ℕ)) (xs ys : List (ℕ × ℕ)) :
    regFold P (xs ++ ys) = regFold (regFold P xs) ys := by
  induction xs generalizing P with
  | nil => rfl
  | cons x xs ih => simpa [regFold] using ih (add_to_pool P x).2

theorem poolMem_regFold (rs : List (ℕ × ℕ)) (P : List (ℕ × ℕ)) (k : ℕ × ℕ) :
    poolMem (regFold P rs) k = (poolMem P k || rs.any (fun r => idEq k r)) := by
  induction rs generalizing P with
  | nil => simp [regFold]
  | cons r rs ih =>
    rw [regFold, ih, poolMem_add_to_pool, List.any_cons]
    cases poolMem P k <;> cases idEq k r <;> simp

/-- Under bounded pairs, pool lookup is plain list membership. -/
theorem poolMem_iff_mem {P : List (ℕ × ℕ)} {k : ℕ × ℕ}
    (hP : ∀ p ∈ P, BoundedPair p) (hk : BoundedPair k) :
    poolMem P k = true ↔ k ∈ P := by
  rw [poolMem_iff_exists]
  constructor
  · rintro ⟨p, hp, he⟩
    rw [(idEq_eq_iff hk (hP p hp)).1 he]
    exact hp
  · intro hk'
    exact ⟨k, hk', (idEq_eq_iff hk hk).2 rfl⟩

/-! ## Helper lemmas: `strcmp` -/

theorem strcmpL_eq_zero_iff : ∀ a b : List Char, strcmpL a b = 0 ↔ a = b
  | [], [] => by simp [strcmpL]
  | [], _ :: _ => by simp [strcmpL]
  | _ :: _, [] => by simp [strcmpL]
  | a :: as, b :: bs => by
    unfold strcmpL
    split_ifs with h1 h2
    · have hne : a ≠ b := fun h => by subst h; omega
      simp [hne]
    · have hne : a ≠ b := fun h => by subst h; omega
      simp [hne]
    · have h3 : a.toNat = b.toNat := by omega
      have hab : a = b := Char.eq_of_val_eq (UInt32.ext h3)
      subst hab
      simp [strcmpL_eq_zero_iff as bs]

theorem strcmpL_antisymm : ∀ a b : List Char, strcmpL b a = -strcmpL a b
  | [], [] => by simp [strcmpL]
  | [], _ :: _ => by simp [strcmpL]
  | _ :: _, [] => by simp [strcmpL]
  | a :: as, b :: bs => by
    unfold strcmpL
    split_ifs <;> try omega
    exact strcmpL_antisymm as bs

theorem strcmpL_trans : ∀ a b c : List Char,
    strcmpL a b < 0 → strcmpL b c < 0 → strcmpL a c < 0
  | [], [], _ => by simp [strcmpL]
  | [], _ :: _, [] => by simp [strcmpL]
  | [], _ :: _, _ :: _ => by simp [strcmpL]
  | _ :: _, [], _ => by
    intro h
    unfold strcmpL at h
    omega
  | a :: as, b :: bs, [] => by
    intro _ h
    unfold strcmpL at h
    omega
  | a :: as, b :: bs, c :: cs => by
    intro h1 h2
    unfold strcmpL at h1 h2 ⊢
    split_ifs at h1 with ha1 ha2 <;> split_ifs at h2 with hb1 hb2 <;> split_ifs with hc1 hc2
    all_goals first
      | rfl
      | omega
      | exact strcmpL_trans as bs cs h1 h2

theorem strcmp_eq_zero_iff (a b : String) : strcmp a b = 0 ↔ a = b := by
  unfold strcmp
  rw [strcmpL_eq_zero_iff]
  exact ⟨fun h => String.ext h, fun h => by rw [h]⟩

theorem strcmp_antisymm (a b : String) : strcmp b a = -strcmp a b :=
  strcmpL_antisymm a.data b.data

theorem strcmp_trans {a b c : String} (h1 : strcmp a b < 0) (h2 : strcmp b c < 0) :
    strcmp a c < 0 :=
  strcmpL_trans a.data b.data c.data h1 h2

/-! ## Claim C2: `add_to_pool` registration semantics -/

theorem add_to_pool_fst (P : List (ℕ × ℕ)) (k : ℕ × ℕ) :
    (add_to_pool P k).1 = !poolMem P k := by
  unfold add_to_pool
  by_cases h : poolMem P k = true
  · rw [if_pos h, h]
    rfl
  · simp only [Bool.not_eq_true] at h
    rw [h, if_neg Bool.false_ne_true]
    rfl

theorem runPool_getD : ∀ (ps : List (ℕ × ℕ)) (P : List (ℕ × ℕ)) (i : ℕ), i < ps.length →
    (runPool P ps).getD i false = !poolMem (regFold P (ps.take i)) (ps.getD i (0, 0))
  | [], _, i => by intro h; exact absurd h (by simp)
  | p :: ps, P, 0 => by
    intro _
    simpa [runPool, regFold] using add_to_pool_fst P p
  | p :: ps, P, i + 1 => by
    intro h
    have ih := runPool_getD ps (add_to_pool P p).2 i (by simpa using h)
    simpa [runPool, regFold] using ih

/-- **C2 (amended).**  A call to `add_to_pool` returns `true` exactly when
no earlier call of the run passed a pair that the truncating comparator
`compare_trees_id_wise` considers equal — that is, a pair whose device and
inode are both congruent to the probed pair's modulo `2 ^ 32` (second
conjunct).  For device and inode values below `2 ^ 32` this coincides with
"the pair has not been passed in any earlier call"; pairs whose components
differ by non-zero multiples of `2 ^ 32` are conflated (see the
counterexample), so the claim's "for arbitrary device and inode values"
does not hold. -/
theorem c2_add_to_pool_registration :
    (∀ (ps : List (ℕ × ℕ)) (i : ℕ), i < ps.length →
      ((runPool [] ps).getD i false = true ↔
        ∀ p ∈ ps.take i, idEq (ps.getD i (0, 0)) p = false)) ∧
    (∀ a b : ℕ × ℕ, idEq a b = true ↔
      (a.1 % 2 ^ 32 = b.1 % 2 ^ 32 ∧ a.2 % 2 ^ 32 = b.2 % 2 ^ 32)) := by
  constructor
  · intro ps i h
    rw [runPool_getD ps [] i h, poolMem_regFold]
    have h0 : poolMem [] (ps.getD i (0, 0)) = false := rfl
    rw [h0, Bool.false_or]
    simp [List.any_eq_false]
  · exact idEq_iff

/-- Witness for C2's amended theorem at a concrete call sequence. -/
theorem c2_add_to_pool_registration_witness :
    ((runPool [] [((0 : ℕ), (0 : ℕ)), (5, 7), (0, 0)]).getD 2 false = true ↔
      ∀ p ∈ [((0 : ℕ), (0 : ℕ)), (5, 7)], idEq (0, 0) p = false) ∧
    (idEq (1, 2) (1, 2) = true ↔
      ((1 : ℕ) % 2 ^ 32 = 1 % 2 ^ 32 ∧ (2 : ℕ) % 2 ^ 32 = 2 % 2 ^ 32)) :=
  ⟨c2_add_to_pool_registration.1 [(0, 0), (5, 7), (0, 0)] 2 (by decide),
    c2_add_to_pool_registration.2 (1, 2) (1, 2)⟩

/-- **C2 (counterexample).**  The pair `(2 ^ 32, 0)` was never passed
before, yet the second call returns `false`: the comparator truncates the
64-bit device difference `2 ^ 32` to the 32-bit `int` `0` and conflates
the two distinct pairs. -/
theorem c2_counterexample :
    runPool [] [(0, 0), (2 ^ 32, 0)] = [true, false] ∧
      ((2 ^ 32 : ℕ), (0 : ℕ)) ≠ ((0 : ℕ), (0 : ℕ)) := by
  constructor
  · decide
  · decide

/-! ## Claim C8: `malloc_humanize` and the rendered size line -/

theorem log2fuel_spec : ∀ (f n : ℕ), 1 ≤ n → n < 2 ^ f →
    2 ^ log2fuel f n ≤ n ∧ n < 2 ^ (log2fuel f n + 1)
  | 0, n => by
    intro h1 h2
    rw [pow_zero] at h2
    omega
  | f + 1, n => by
    intro h1 h2
    unfold log2fuel
    split_ifs with h
    · have hlt : n / 2 < 2 ^ f := by
        have hp : 2 ^ (f + 1) = 2 * 2 ^ f := by ring
        omega
      have ih := log2fuel_spec f (n / 2) (by omega) hlt
      have e1 : 2 ^ (log2fuel f (n / 2) + 1) = 2 * 2 ^ log2fuel f (n / 2) := by ring
      have e2 : 2 ^ (log2fuel f (n / 2) + 1 + 1) = 2 * 2 ^ (log2fuel f (n / 2) + 1) := by ring
      exact ⟨by omega, by omega⟩
    · have hn : n = 1 := by omega
      subst hn
      norm_num

/-- `(double)n` never more than doubles `n` (crude but sufficient bound). -/
theorem roundDouble_le_double (n : ℕ) (h : n < 2 ^ 64) : roundDouble n ≤ 2 * n := by
  unfold roundDouble log2b
  split_ifs with hs hc
  · omega
  all_goals
    push_neg at hs
    have h1 : 1 ≤ n := le_trans Nat.one_le_two_pow hs
    obtain ⟨hL1, hL2⟩ := log2fuel_spec 64 n h1 h
    have hq : n / 2 ^ (log2fuel 64 n - 52) * 2 ^ (log2fuel 64 n - 52) ≤ n :=
      Nat.div_mul_le_self _ _
    have hss : 2 ^ (log2fuel 64 n - 52) ≤ 2 ^ log2fuel 64 n :=
      Nat.pow_le_pow_right (by norm_num) (by omega)
    have hdist : (n / 2 ^ (log2fuel 64 n - 52) + 1) * 2 ^ (log2fuel 64 n - 52) =
        n / 2 ^ (log2fuel 64 n - 52) * 2 ^ (log2fuel 64 n - 52) +
          2 ^ (log2fuel 64 n - 52) := by ring
    omega

theorem humExpSteps_spec (d : ℤ) : ∀ (fuel k : ℕ), d ≤ 1024 ^ (k + fuel + 1) →
    d ≤ 1024 ^ (humExpSteps d fuel k + 1) ∧
      (humExpSteps d fuel k = k ∨ 1024 ^ humExpSteps d fuel k < d) ∧
      k ≤ humExpSteps d fuel k
  | 0, k => by
    intro h
    unfold humExpSteps
    exact ⟨by simpa using h, Or.inl rfl, le_refl _⟩
  | fuel + 1, k => by
    intro h
    unfold humExpSteps
    split_ifs with hlt
    · have h' : d ≤ 1024 ^ (k + 1 + fuel + 1) := by
        have he : k + 1 + fuel + 1 = k + (fuel + 1) + 1 := by omega
        rw [he]
        exact h
      obtain ⟨ih1, ih2, ih3⟩ := humExpSteps_spec d fuel (k + 1) h'
      refine ⟨ih1, ?_, by omega⟩
      rcases ih2 with he | hlt'
      · rw [he]
        exact Or.inr hlt
      · exact Or.inr hlt'
    · exact ⟨by omega, Or.inl rfl, le_refl _⟩

/-- **C8 (amended).**  For every `off_t` byte count `0 ≤ z < 2 ^ 63`, the
rendered size field is produced by first converting the count to `double`
(rounding to 53 significand bits, `doubleOf`) and then choosing the
largest binary unit from {B, kiB, MiB, GiB, TiB, PiB, EiB} reached by
dividing while the scaled converted count exceeds 1024 — so the converted
count scaled by `1024 ^ (e - 1)` is `≤ 1024` (`doubleOf z ≤ 1024 ^ e`) and
the unit is the least such — and formatting that scaled value with exactly
one fractional digit; the rendered line appends a trailing `/` to the name
exactly when the node is a directory.  (The unamended claim states this of
the exact count; it fails at counts above `2 ^ 53` that round across a
unit boundary, see the counterexample.) -/
theorem c8_humanize_amended :
    (∀ z : ℤ, 0 ≤ z → z < 2 ^ 63 →
      1 ≤ humanize_exponent z ∧ humanize_exponent z ≤ 7 ∧
      doubleOf z ≤ 1024 ^ humanize_exponent z ∧
      (humanize_exponent z = 1 ∨ 1024 ^ (humanize_exponent z - 1) < doubleOf z) ∧
      units.getD (humanize_exponent z) "" ∈ ["  B", "kiB", "MiB", "GiB", "TiB", "PiB", "EiB"] ∧
      ∃ w : ℤ, ∃ g : ℕ, g < 10 ∧
        malloc_humanize z =
          padLeft (toString w ++ "." ++ toString g) 6 ++
            units.getD (humanize_exponent z) "") ∧
    (∀ (v : Node) (ind : String), v.name ≠ "" → v.name.data.getLast? ≠ some '/' →
      ((present_line v ind).data.getLast? = some '/' ↔ is_dir v = true)) := by
  constructor
  · intro z hz0 hz63
    have hd0 : doubleOf z = (roundDouble z.toNat : ℤ) := by
      unfold doubleOf
      rw [if_neg (by omega)]
    have htn : z.toNat < 2 ^ 63 := by omega
    have h2p : (2 : ℕ) ^ 63 < 2 ^ 64 := by norm_num
    have hdb : roundDouble z.toNat ≤ 2 * z.toNat := roundDouble_le_double z.toNat (by omega)
    have hd64 : doubleOf z ≤ 2 ^ 64 := by
      rw [hd0]
      have : (2 : ℕ) ^ 63 < 2 ^ 64 := by norm_num
      omega
    have hfuel : doubleOf z ≤ 1024 ^ (0 + 62 + 1) := le_trans hd64 (by norm_num)
    obtain ⟨hA, hB, _⟩ := humExpSteps_spec (doubleOf z) 62 0 hfuel
    have hee : humanize_exponent z = 1 + humExpSteps (doubleOf z) 62 0 := rfl
    have hr6 : humExpSteps (doubleOf z) 62 0 ≤ 6 := by
      rcases hB with hB | hB
      · omega
      · by_contra hc
        push_neg at hc
        have h7 : (1024 : ℤ) ^ 7 ≤ 1024 ^ humExpSteps (doubleOf z) 62 0 :=
          pow_le_pow_right₀ (by norm_num) (by omega)
        have : (1024 : ℤ) ^ 7 = 2 ^ 70 := by norm_num
        have h64 : (2 : ℤ) ^ 64 < 2 ^ 70 := by norm_num
        omega
    refine ⟨by omega, by omega, ?_, ?_, ?_, ?_⟩
    · rw [hee]
      have : 1 + humExpSteps (doubleOf z) 62 0 = humExpSteps (doubleOf z) 62 0 + 1 := by omega
      rw [this]
      exact hA
    · rcases hB with hB | hB
      · exact Or.inl (by omega)
      · refine Or.inr ?_
        rw [hee]
        simpa using hB
    · rw [hee]
      set r := humExpSteps (doubleOf z) 62 0 with hrdef
      interval_cases r <;> simp [units]
    · refine ⟨tenths (doubleOf z) (humanize_exponent z - 1) / 10,
        (tenths (doubleOf z) (humanize_exponent z - 1) % 10).toNat, ?_, rfl⟩
      have h1 := Int.emod_lt_of_pos (tenths (doubleOf z) (humanize_exponent z - 1))
        (by norm_num : (0 : ℤ) < 10)
      have h2 := Int.emod_nonneg (tenths (doubleOf z) (humanize_exponent z - 1))
        (by norm_num : (10 : ℤ) ≠ 0)
      omega
  · intro v ind hne hlast
    unfold present_line
    by_cases hdir : is_dir v = true
    · rw [if_pos hdir]
      constructor
      · intro _
        exact hdir
      · intro _
        rw [String.data_append,
          List.getLast?_append_of_ne_nil _ (by decide : ("/" : String).data ≠ [])]
        rfl
    · rw [if_neg hdir]
      have hdata : ((padLeft (malloc_humanize (display_size v)) 9 ++ ind ++ " " ++ v.name ++
          "").data) = (padLeft (malloc_humanize (display_size v)) 9 ++ ind ++ " ").data ++
            v.name.data := by
        rw [String.data_append, String.data_append]
        simp [String.data]
      have hnd : v.name.data ≠ [] := fun hd => hne (String.ext hd)
      rw [hdata, List.getLast?_append_of_ne_nil _ hnd]
      simp [hdir, hlast]

/-- Witness for C8's amended theorem at the byte count 10 and a plain-file
node. -/
theorem c8_humanize_amended_witness :
    (1 ≤ humanize_exponent 10 ∧ humanize_exponent 10 ≤ 7 ∧
      doubleOf 10 ≤ 1024 ^ humanize_exponent 10 ∧
      (humanize_exponent 10 = 1 ∨ 1024 ^ (humanize_exponent 10 - 1) < doubleOf 10) ∧
      units.getD (humanize_exponent 10) "" ∈ ["  B", "kiB", "MiB", "GiB", "TiB", "PiB", "EiB"] ∧
      ∃ w : ℤ, ∃ g : ℕ, g < 10 ∧
        malloc_humanize 10 =
          padLeft (toString w ++ "." ++ toString g) 6 ++
            units.getD (humanize_exponent 10) "") ∧
    (((present_line (Node.mk "x" 1 2 10 0x8000 [] 0) "").data.getLast? = some '/') ↔
      is_dir (Node.mk "x" 1 2 10 0x8000 [] 0) = true) :=
  ⟨c8_humanize_amended.1 10 (by decide) (by decide),
    c8_humanize_amended.2 (Node.mk "x" 1 2 10 0x8000 [] 0) "" (by decide) (by decide)⟩

/-- **C8 (counterexample).**  At the byte count `2 ^ 60 + 1` the `double`
conversion rounds down to `2 ^ 60`, the loop stops at the unit PiB
(exponent 6), and the exact count scaled by `1024 ^ 5` is *not* `≤ 1024`:
the exact count exceeds `1024 ^ 6`, contradicting the claim's "the count
scaled by the corresponding power of 1024 is ≤ 1024" read of the exact
byte count. -/
theorem c8_counterexample :
    humanize_exponent (2 ^ 60 + 1) = 6 ∧
    doubleOf (2 ^ 60 + 1) = 2 ^ 60 ∧
    units.getD 6 "" = "PiB" ∧
    ¬((2 ^ 60 + 1 : ℤ) ≤ 1024 ^ 6) := by
  refine ⟨by decide, by decide, by decide, by decide⟩

/-! ## Claim C3: the sibling comparator -/

theorem cmp_dir_lt (a b : Node) (ha : is_dir a = true) (hb : is_dir b = false) :
    compare_siblings a b = -1 := by
  unfold compare_siblings
  rw [ha, hb]
  norm_num

theorem cmp_dir_gt (a b : Node) (ha : is_dir a = false) (hb : is_dir b = true) :
    compare_siblings a b = 1 := by
  unfold compare_siblings
  rw [ha, hb]
  norm_num

/-- For same-directory-ness siblings with in-range size difference, the
comparator is exactly the size-then-name lexicographic comparison. -/
theorem cmp_same_dir (a b : Node) (hdd : is_dir a = is_dir b)
    (hb : |totalContent a - totalContent b| < 2 ^ 31) :
    compare_siblings a b =
      if totalContent b = totalContent a then strcmp a.name b.name
      else totalContent b - totalContent a := by
  unfold compare_siblings
  rw [hdd, sub_self]
  simp only [ne_eq, not_true_eq_false, if_false]
  have habs := abs_lt.mp hb
  have htr : toInt32 (totalContent b - totalContent a) = totalContent b - totalContent a :=
    toInt32_eq_self (by omega) (by omega)
  rw [htr]
  split_ifs with h1 h2 h3 <;> first | rfl | omega

theorem sorted_perm_eq {α : Type} (r : α → α → Prop) :
    ∀ (l₁ l₂ : List α), l₁.Perm l₂ → l₁.Sorted r → l₂.Sorted r →
      (∀ x ∈ l₁, ∀ y ∈ l₁, r x y → r y x → x = y) → l₁ = l₂
  | [], l₂, hp, _, _, _ => hp.nil_eq
  | a :: t₁, [], hp, _, _, _ => by
    have := hp.length_eq
    simp at this
  | a :: t₁, b :: t₂, hp, hs₁, hs₂, hanti => by
    have hab : a = b := by
      have ha2 : a ∈ b :: t₂ := hp.subset (List.mem_cons_self a t₁)
      rcases List.mem_cons.1 ha2 with h | ha_t2
      · exact h
      · have hb1 : b ∈ a :: t₁ := hp.symm.subset (List.mem_cons_self b t₂)
        rcases List.mem_cons.1 hb1 with h | hb_t1
        · exact h.symm
        · have rab : r a b := List.rel_of_sorted_cons hs₁ b hb_t1
          have rba : r b a := List.rel_of_sorted_cons hs₂ a ha_t2
          exact hanti a (List.mem_cons_self a t₁) b (List.mem_cons_of_mem _ hb_t1) rab rba
    subst hab
    have hp' : t₁.Perm t₂ := hp.cons_inv
    have hrec := sorted_perm_eq r t₁ t₂ hp' hs₁.of_cons hs₂.of_cons
      (fun x hx y hy => hanti x (List.mem_cons_of_mem _ hx) y (List.mem_cons_of_mem _ hy))
    rw [hrec]

/-- **C3 (amended).**  On siblings with pairwise-distinct names whose
pairwise total-size differences fit in a 32-bit `int` (`sizeOK`), the
comparator `compare_siblings` is a strict total order: directories sort
before non-directories regardless of size (1); among nodes of the same
directory-ness the node with larger `content_size + add_content_size`
sorts first (2), with exact ties broken by ascending byte-wise name
comparison (3); the order is asymmetric and total (4) and transitive (5);
hence any two comparator-sorted permutations of the same children
coincide (6), and the model's sort is a permutation of its input (7).
(The unamended "for arbitrary off_t sizes" fails: the `int` truncation of
the size difference collapses differences that are multiples of `2 ^ 32`,
see the counterexample.) -/
theorem c3_comparator_strict_total_order :
    (∀ a b : Node, is_dir a = true → is_dir b = false → compare_siblings a b < 0) ∧
    (∀ a b : Node, is_dir a = is_dir b → sizeOK a b →
      totalContent b < totalContent a → compare_siblings a b < 0) ∧
    (∀ a b : Node, is_dir a = is_dir b → totalContent a = totalContent b →
      (compare_siblings a b < 0 ↔ strcmp a.name b.name < 0)) ∧
    (∀ a b : Node, sizeOK a b → a.name ≠ b.name →
      ((compare_siblings a b < 0 ↔ 0 < compare_siblings b a) ∧ compare_siblings a b ≠ 0)) ∧
    (∀ a b c : Node, sizeOK a b → sizeOK b c → sizeOK a c →
      compare_siblings a b < 0 → compare_siblings b c < 0 → compare_siblings a c < 0) ∧
    (∀ l₁ l₂ : List Node, l₁.Perm l₂ →
      l₁.Sorted (fun x y => compare_siblings x y ≤ 0) →
      l₂.Sorted (fun x y => compare_siblings x y ≤ 0) →
      (∀ x ∈ l₁, ∀ y ∈ l₁, x ≠ y → x.name ≠ y.name) →
      (∀ x ∈ l₁, ∀ y ∈ l₁, sizeOK x y) → l₁ = l₂) ∧
    (∀ l : List Node, (sort_siblings l).Perm l) := by
  have h2 : ∀ a b : Node, is_dir a = is_dir b → sizeOK a b →
      totalContent b < totalContent a → compare_siblings a b < 0 := by
    intro a b hdd hsz hlt
    rw [cmp_same_dir a b hdd hsz]
    rw [if_neg (by omega)]
    omega
  have h3 : ∀ a b : Node, is_dir a = is_dir b → totalContent a = totalContent b →
      (compare_siblings a b < 0 ↔ strcmp a.name b.name < 0) := by
    intro a b hdd heq
    have hsz : sizeOK a b := by unfold sizeOK; rw [heq]; simp
    rw [cmp_same_dir a b hdd hsz, if_pos heq.symm]
  have h4 : ∀ a b : Node, sizeOK a b → a.name ≠ b.name →
      ((compare_siblings a b < 0 ↔ 0 < compare_siblings b a) ∧ compare_siblings a b ≠ 0) := by
    intro a b hsz hnm
    have hsz' : sizeOK b a := by unfold sizeOK at hsz ⊢; rw [abs_sub_comm]; exact hsz
    by_cases hdd : is_dir a = is_dir b
    · rw [cmp_same_dir a b hdd hsz, cmp_same_dir b a hdd.symm hsz']
      by_cases heq : totalContent b = totalContent a
      · rw [if_pos heq, if_pos heq.symm, strcmp_antisymm a.name b.name]
        have hz : strcmp a.name b.name ≠ 0 := fun h => hnm ((strcmp_eq_zero_iff _ _).1 h)
        constructor
        · omega
        · exact hz
      · rw [if_neg heq, if_neg (fun h => heq h.symm)]
        constructor
        · omega
        · omega
    · rcases Bool.eq_false_or_eq_true (is_dir a) with ha | ha
      · have hb : is_dir b = false := by
          rcases Bool.eq_false_or_eq_true (is_dir b) with h | h
          · exact absurd (ha.trans h.symm) hdd
          · exact h
        rw [cmp_dir_lt a b ha hb, cmp_dir_gt b a hb ha]
        norm_num
      · have hb : is_dir b = true := by
          rcases Bool.eq_false_or_eq_true (is_dir b) with h | h
          · exact h
          · exact absurd (ha.trans h.symm) hdd
        rw [cmp_dir_gt a b ha hb, cmp_dir_lt b a hb ha]
        norm_num
  have h5 : ∀ a b c : Node, sizeOK a b → sizeOK b c → sizeOK a c →
      compare_siblings a b < 0 → compare_siblings b c < 0 → compare_siblings a c < 0 := by
    intro a b c hab hbc hac h1 h2'
    rcases Bool.eq_false_or_eq_true (is_dir a) with hA | hA <;>
      rcases Bool.eq_false_or_eq_true (is_dir b) with hB | hB <;>
        rcases Bool.eq_false_or_eq_true (is_dir c) with hC | hC
    · -- T T T
      rw [cmp_same_dir a b (hA.trans hB.symm) hab] at h1
      rw [cmp_same_dir b c (hB.trans hC.symm) hbc] at h2'
      rw [cmp_same_dir a c (hA.trans hC.symm) hac]
      split_ifs at h1 h2' ⊢ with e1 e2 e3 <;> try omega
      exact strcmp_trans h1 h2'
    · -- T T F
      rw [cmp_dir_lt a c hA hC]
      omega
    · -- T F T
      rw [cmp_dir_gt b c hB hC] at h2'
      omega
    · -- T F F
      rw [cmp_dir_lt a c hA hC]
      omega
    · -- F T T
      rw [cmp_dir_gt a b hA hB] at h1
      omega
    · -- F T F
      rw [cmp_dir_gt a b hA hB] at h1
      omega
    · -- F F T
      rw [cmp_dir_gt b c hB hC] at h2'
      omega
    · -- F F F
      rw [cmp_same_dir a b (hA.trans hB.symm) hab] at h1
      rw [cmp_same_dir b c (hB.trans hC.symm) hbc] at h2'
      rw [cmp_same_dir a c (hA.trans hC.symm) hac]
      split_ifs at h1 h2' ⊢ with e1 e2 e3 <;> try omega
      exact strcmp_trans h1 h2'
  refine ⟨fun a b ha hb => by rw [cmp_dir_lt a b ha hb]; norm_num, h2, h3, h4, h5, ?_, ?_⟩
  · intro l₁ l₂ hp hs₁ hs₂ hnames hszs
    refine sorted_perm_eq _ l₁ l₂ hp hs₁ hs₂ ?_
    intro x hx y hy hxy hyx
    by_contra hne
    have h4' := h4 x y (hszs x hx y hy) (hnames x hx y hy hne)
    rcases lt_or_eq_of_le hxy with hlt | heq
    · have := (h4'.1).1 hlt
      omega
    · exact h4'.2 heq
  · intro l
    exact List.mergeSort_perm l _

/-- Witness for C3's amended theorem at concrete nodes and lists. -/
theorem c3_comparator_witness :
    compare_siblings (Node.mk "d" 1 2 0 0x4000 [] 5) (Node.mk "f" 1 3 99 0x8000 [] 0) < 0 ∧
    compare_siblings (Node.mk "big" 1 4 8 0x8000 [] 0) (Node.mk "small" 1 5 3 0x8000 [] 0) < 0 ∧
    ([Node.mk "a" 1 6 7 0x8000 [] 0] : List Node) = [Node.mk "a" 1 6 7 0x8000 [] 0] ∧
    (sort_siblings [Node.mk "a" 1 6 7 0x8000 [] 0]).Perm [Node.mk "a" 1 6 7 0x8000 [] 0] :=
  ⟨c3_comparator_strict_total_order.1 _ _ (by decide) (by decide),
    c3_comparator_strict_total_order.2.1 _ _ (by decide) (by decide) (by decide),
    c3_comparator_strict_total_order.2.2.2.2.2.1 _ _ (List.Perm.refl _) (by decide) (by decide)
      (by
        intro x hx y hy hxy
        simp only [List.mem_singleton] at hx hy
        subst hx
        subst hy
        exact absurd rfl hxy)
      (by
        intro x hx y hy
        simp only [List.mem_singleton] at hx hy
        subst hx
        subst hy
        decide),
    c3_comparator_strict_total_order.2.2.2.2.2.2 _⟩

/-- **C3 (counterexample).**  Two files whose totals differ by exactly
`2 ^ 32` (sizes `2 ^ 32` and `0`): the truncated size difference is the
`int` `0`, the comparator falls through to the name tie-break, and the
*larger* node sorts *after* the smaller one — refuting "for arbitrary
off_t sizes, the node with larger contentSize + aggregateSize sorts
first". -/
theorem c3_counterexample :
    is_dir (Node.mk "b" 0 0 (2 ^ 32) 0x8000 [] 0) =
        is_dir (Node.mk "a" 0 0 0 0x8000 [] 0) ∧
      totalContent (Node.mk "a" 0 0 0 0x8000 [] 0) <
        totalContent (Node.mk "b" 0 0 (2 ^ 32) 0x8000 [] 0) ∧
      0 < compare_siblings (Node.mk "b" 0 0 (2 ^ 32) 0x8000 [] 0)
          (Node.mk "a" 0 0 0 0x8000 [] 0) ∧
      (sort_siblings [Node.mk "b" 0 0 (2 ^ 32) 0x8000 [] 0,
          Node.mk "a" 0 0 0 0x8000 [] 0]).map Node.name = ["a", "b"] := by
  refine ⟨by decide, by decide, by decide, by decide⟩

/-! ## Accessor reduction lemmas -/

@[simp] theorem Node.name_mk (n d i s m c a) : (Node.mk n d i s m c a).name = n := rfl

@[simp] theorem Node.device_mk (n d i s m c a) : (Node.mk n d i s m c a).device = d := rfl

@[simp] theorem Node.inode_mk (n d i s m c a) : (Node.mk n d i s m c a).inode = i := rfl

@[simp] theorem Node.content_size_mk (n d i s m c a) :
    (Node.mk n d i s m c a).content_size = s := rfl

@[simp] theorem Node.mode_mk (n d i s m c a) : (Node.mk n d i s m c a).mode = m := rfl

@[simp] theorem Node.child_mk (n d i s m c a) : (Node.mk n d i s m c a).child = c := rfl

@[simp] theorem Node.add_content_size_mk (n d i s m c a) :
    (Node.mk n d i s m c a).add_content_size = a := rfl

@[simp] theorem FSTree.entryName_mk (n m tm se oe cs re) :
    (FSTree.mk n m tm se oe cs re).name = n := rfl

@[simp] theorem FSTree.meta_mk (n m tm se oe cs re) :
    (FSTree.mk n m tm se oe cs re).meta = m := rfl

@[simp] theorem FSTree.targetMeta_mk (n m tm se oe cs re) :
    (FSTree.mk n m tm se oe cs re).targetMeta = tm := rfl

@[simp] theorem FSTree.statErr_mk (n m tm se oe cs re) :
    (FSTree.mk n m tm se oe cs re).statErr = se := rfl

@[simp] theorem FSTree.openErr_mk (n m tm se oe cs re) :
    (FSTree.mk n m tm se oe cs re).openErr = oe := rfl

@[simp] theorem FSTree.children_mk (n m tm se oe cs re) :
    (FSTree.mk n m tm se oe cs re).children = cs := rfl

@[simp] theorem FSTree.readdirErr_mk (n m tm se oe cs re) :
    (FSTree.mk n m tm se oe cs re).readdirErr = re := rfl

/-- The fields of the node passed to `crawl_tree` other than the child
list and the aggregate are returned unchanged. -/
theorem crawl_tree_preserves (root : Node) (P : List (ℕ × ℕ)) (d : String) (t : FSTree) :
    (crawl_tree root P d t).1.name = root.name ∧
    (crawl_tree root P d t).1.device = root.device ∧
    (crawl_tree root P d t).1.inode = root.inode ∧
    (crawl_tree root P d t).1.content_size = root.content_size ∧
    (crawl_tree root P d t).1.mode = root.mode := by
  cases t with
  | mk n m tm se oe cs re =>
    cases oe with
    | some e => simp [crawl_tree]
    | none => simp [crawl_tree]

/-! ## Claim C4: exit status of `main` -/

/-- **C4.**  `main` exits with status 0 on normal completion — for every
filesystem whose root probe succeeds, whatever per-entry or per-directory
errors the traversal reports — and exits with status 1, reporting only the
root stat error and producing no stdout (no traversal, no rendering),
exactly when the initial root path cannot be probed.  (This is the
behaviour of `ckdu.c`; the earlier evolution `src/unnamed/part_000`
ignores the probe result.) -/
theorem c4_exit_status (path : String) (t : FSTree) :
    (∀ e, t.statErr = some e →
      main_model path t = (1, [], [handle_stat_error e path "."])) ∧
    (t.statErr = none → (main_model path t).1 = 0) := by
  constructor
  · intro e he
    unfold main_model
    rw [he]
  · intro he
    unfold main_model
    rw [he]

/-- Witness for C4: a failing root probe (EACCES) exits 1 before any
output; a crawl over a tree with an unreadable subdirectory reports an
error yet still exits 0. -/
theorem c4_exit_status_witness :
    main_model "p" (FSTree.mk "r" ⟨1, 1, 0, 0x4000⟩ none (some 13) none [] none) =
      (1, [], [handle_stat_error 13 "p" "."]) ∧
    (main_model "p" (FSTree.mk "r" ⟨1, 1, 0, 0x4000⟩ none none none
      [FSTree.mk "sub" ⟨1, 2, 0, 0x4000⟩ none none (some 13) [] none] none)).1 = 0 ∧
    (main_model "p" (FSTree.mk "r" ⟨1, 1, 0, 0x4000⟩ none none none
      [FSTree.mk "sub" ⟨1, 2, 0, 0x4000⟩ none none (some 13) [] none] none)).2.2 ≠ [] :=
  ⟨(c4_exit_status "p" _).1 13 rfl, (c4_exit_status "p" _).2 rfl, by decide⟩

/-! ## Claim C5: symlinks are probed with `lstat` and never crawled -/

/-- **C5.**  `initialize_tree_entry` probes with `lstat`, which does not
follow symbolic links: for an entry whose own mode is a symlink
(`S_IFLNK`), the resulting node's device, inode, size and mode are those
of the link itself — the conclusion does not depend on the universally
quantified `targetMeta` or `children` (the modelled target attributes and
target contents) — the node is never classified as a directory, its child
list stays empty, no recursion happens (the pool receives only the link's
own pair and the contribution carries no aggregate), and its registration
list is just its own pair. -/
theorem c5_symlink_not_followed (nm : String) (m : Meta) (tm : Option Meta)
    (oe : Option ℕ) (cs : List FSTree) (re : Option ℕ) (P : List (ℕ × ℕ)) (d : String)
    (hlnk : m.mode &&& 0xF000 = 0xA000) (hnm : ¬(nm = "." ∨ nm = "..")) :
    crawl_entry d (FSTree.mk nm m tm none oe cs re) P =
      ⟨some (Node.mk nm m.device m.inode m.size m.mode [] 0),
        (add_to_pool P (m.device, m.inode)).2, [],
        if (add_to_pool P (m.device, m.inode)).1 then m.size else 0⟩ ∧
    is_dir (Node.mk nm m.device m.inode m.size m.mode [] 0) = false ∧
    entryRegs (FSTree.mk nm m tm none oe cs re) = [(m.device, m.inode)] := by
  push_neg at hnm
  have hb1 : (nm == ".") = false := beq_eq_false_iff_ne.2 hnm.1
  have hb2 : (nm == "..") = false := beq_eq_false_iff_ne.2 hnm.2
  have hdir : S_ISDIR m.mode = false := by
    unfold S_ISDIR S_IFMT S_IFDIR
    rw [hlnk]
    decide
  refine ⟨?_, ?_, ?_⟩
  · unfold crawl_entry
    simp only [FSTree.entryName_mk, FSTree.statErr_mk, hb1, hb2, Bool.or_self, Bool.false_eq_true,
      if_false]
    simp only [lstatMeta, FSTree.meta_mk, is_dir, Node.mode_mk, hdir, Bool.false_eq_true,
      if_false]
    simp
  · simp [is_dir, hdir]
  · unfold entryRegs
    rw [hb1, hb2]
    simp [hdir]

/-- Witness for C5 at a concrete symlink whose modelled target is a
populated directory. -/
theorem c5_symlink_not_followed_witness :
    crawl_entry "p" (FSTree.mk "ln" ⟨1, 5, 11, 0xA1FF⟩ (some ⟨1, 6, 999, 0x41FF⟩) none
        none [FSTree.mk "inside" ⟨1, 7, 100, 0x8000⟩ none none none [] none] none) [] =
      ⟨some (Node.mk "ln" 1 5 11 0xA1FF [] 0), (add_to_pool [] (1, 5)).2, [],
        if (add_to_pool [] (1, 5)).1 then 11 else 0⟩ ∧
    is_dir (Node.mk "ln" 1 5 11 0xA1FF [] 0) = false ∧
    entryRegs (FSTree.mk "ln" ⟨1, 5, 11, 0xA1FF⟩ (some ⟨1, 6, 999, 0x41FF⟩) none
        none [FSTree.mk "inside" ⟨1, 7, 100, 0x8000⟩ none none none [] none] none) =
      [(1, 5)] :=
  c5_symlink_not_followed "ln" ⟨1, 5, 11, 0xA1FF⟩ (some ⟨1, 6, 999, 0x41FF⟩) none
    [FSTree.mk "inside" ⟨1, 7, 100, 0x8000⟩ none none none [] none] none [] "p"
    (by decide) (by decide)

/-! ## Claim C6: mid-listing `readdir` failure -/

/-- **C6 (divergence witness).**  When `readdir` fails mid-listing
(here with `EBADF` after one entry), `ckdu.c` line 307 calls
`handle_opendir_error`, not `handle_readdir_error`: the report carries the
action word `"opening"` and the opendir description table (under which
`EBADF` is unrecognised, yielding `E???`/`Unknown error`), while the
never-called `handle_readdir_error` would have produced `"reading"` with
the readdir-specific `EBADF` text the claim describes.  Enumeration stops
with the already-discovered child retained and the crawl completes
normally, as the claim states. -/
theorem c6_readdir_error_uses_opendir_handler :
    (crawl_tree (Node.mk "d" 1 2 0 0x4000 [] 0) [] "p"
        (FSTree.mk "d" ⟨1, 2, 0, 0x4000⟩ none none none
          [FSTree.mk "f" ⟨1, 3, 7, 0x8000⟩ none none none [] none] (some EBADF))).2.2 =
      [handle_opendir_error EBADF "p"] ∧
    (handle_opendir_error EBADF "p").action = "opening" ∧
    (handle_opendir_error EBADF "p").constName = "E???" ∧
    (handle_opendir_error EBADF "p").desc = "Unknown error" ∧
    (handle_readdir_error EBADF "p").action = "reading" ∧
    (handle_readdir_error EBADF "p").constName = "EBADF" ∧
    (handle_readdir_error EBADF "p").desc =
      "The dirp argument does not refer to an open directory stream." ∧
    (crawl_tree (Node.mk "d" 1 2 0 0x4000 [] 0) [] "p"
        (FSTree.mk "d" ⟨1, 2, 0, 0x4000⟩ none none none
          [FSTree.mk "f" ⟨1, 3, 7, 0x8000⟩ none none none [] none] (some EBADF))).1.child.map
        Node.name = ["f"] ∧
    (crawl_tree (Node.mk "d" 1 2 0 0x4000 [] 0) [] "p"
        (FSTree.mk "d" ⟨1, 2, 0, 0x4000⟩ none none none
          [FSTree.mk "f" ⟨1, 3, 7, 0x8000⟩ none none none [] none]
            (some EBADF))).1.add_content_size = 7 := by
  refine ⟨by decide, by decide, by decide, by decide, by decide, by decide, by decide,
    by decide, by decide⟩

/-! ## Claim C10: displayed sizes ignore hard-link deduplication -/

/-- **C10.**  The renderer's displayed size is `content_size` plus, for
directories, `add_content_size`, with no reference to the inode pool: in a
directory holding two hard links `x` and `y` to the same (device, inode),
the second link contributed nothing to the parent aggregate (10, not 20),
yet both rendered rows display the full 10.0 B, so the children's
displayed sizes (10 + 10) exceed the parent's displayed 10. -/
theorem c10_display_ignores_dedup :
    (main_model "p" (FSTree.mk "r" ⟨1, 1, 0, 0x4000⟩ none none none
        [FSTree.mk "x" ⟨1, 100, 10, 0x8000⟩ none none none [] none,
          FSTree.mk "y" ⟨1, 100, 10, 0x8000⟩ none none none [] none] none)).2.1 =
      ["  10.0  B ./", "  10.0  B   x", "  10.0  B   y"] ∧
    ((crawl_tree (Node.mk "." 1 1 0 0x4000 [] 0) [] "p"
        (FSTree.mk "r" ⟨1, 1, 0, 0x4000⟩ none none none
          [FSTree.mk "x" ⟨1, 100, 10, 0x8000⟩ none none none [] none,
            FSTree.mk "y" ⟨1, 100, 10, 0x8000⟩ none none none [] none]
              none)).1.child.map display_size) = [10, 10] ∧
    display_size ((crawl_tree (Node.mk "." 1 1 0 0x4000 [] 0) [] "p"
        (FSTree.mk "r" ⟨1, 1, 0, 0x4000⟩ none none none
          [FSTree.mk "x" ⟨1, 100, 10, 0x8000⟩ none none none [] none,
            FSTree.mk "y" ⟨1, 100, 10, 0x8000⟩ none none none [] none] none)).1) = 10 ∧
    ((crawl_tree (Node.mk "." 1 1 0 0x4000 [] 0) [] "p"
        (FSTree.mk "r" ⟨1, 1, 0, 0x4000⟩ none none none
          [FSTree.mk "x" ⟨1, 100, 10, 0x8000⟩ none none none [] none,
            FSTree.mk "y" ⟨1, 100, 10, 0x8000⟩ none none none [] none]
              none)).1.add_content_size) = 10 := by
  refine ⟨by decide, by decide, by decide, by decide⟩

/-! ## The crawl loop as a fold over `crawl_entry` -/

/-- One unfolding of the enumeration loop: processing `c :: rest` is
`crawl_entry` on `c` followed by the loop on `rest` from the updated
pool. -/
theorem crawl_children_cons (d : String) (c : FSTree) (rest : List FSTree)
    (P : List (ℕ × ℕ)) :
    crawl_children d (c :: rest) P =
      ⟨(match (crawl_entry d c P).res with
          | some n => n :: (crawl_children d rest (crawl_entry d c P).pool).nodes
          | none => (crawl_children d rest (crawl_entry d c P).pool).nodes),
        (crawl_children d rest (crawl_entry d c P).pool).pool,
        (crawl_entry d c P).errs ++ (crawl_children d rest (crawl_entry d c P).pool).errs,
        (crawl_entry d c P).contrib +
          (crawl_children d rest (crawl_entry d c P).pool).addSum⟩ := by
  cases c with
  | mk n m tm se oe cs re =>
    by_cases hg : (n == "." || n == "..") = true
    · simp only [crawl_children, crawl_entry, FSTree.entryName_mk, hg, if_true]
      simp
    · simp only [Bool.not_eq_true] at hg
      cases se with
      | some e =>
        simp only [crawl_children, crawl_entry, FSTree.entryName_mk, FSTree.statErr_mk, hg,
          Bool.false_eq_true, if_false]
        simp
      | none =>
        simp only [crawl_children, crawl_entry, FSTree.entryName_mk, FSTree.statErr_mk, hg,
          Bool.false_eq_true, if_false]

/-- The enumeration loop splits over list concatenation. -/
theorem crawl_children_append (d : String) (xs ys : List FSTree) (P : List (ℕ × ℕ)) :
    crawl_children d (xs ++ ys) P =
      ⟨(crawl_children d xs P).nodes ++
          (crawl_children d ys (crawl_children d xs P).pool).nodes,
        (crawl_children d ys (crawl_children d xs P).pool).pool,
        (crawl_children d xs P).errs ++
          (crawl_children d ys (crawl_children d xs P).pool).errs,
        (crawl_children d xs P).addSum +
          (crawl_children d ys (crawl_children d xs P).pool).addSum⟩ := by
  induction xs generalizing P with
  | nil =>
    simp only [List.nil_append, crawl_children]
    simp
  | cons c xs ih =>
    rw [List.cons_append, crawl_children_cons, crawl_children_cons]
    simp only []
    rw [ih]
    cases (crawl_entry d c P).res <;> simp [List.append_assoc, add_assoc]

/-! ## Claim C7: a directory that cannot be opened -/

/-- Processing an entry that stats as a directory but fails to open:
report, keep the node with no children and aggregate 0, register its pair,
contribute only its own size. -/
theorem crawl_entry_openfail (nm : String) (m : Meta) (tm : Option Meta) (e : ℕ)
    (cs : List FSTree) (re : Option ℕ) (P : List (ℕ × ℕ)) (d : String)
    (hdir : S_ISDIR m.mode = true) (hnm : ¬(nm = "." ∨ nm = "..")) :
    crawl_entry d (FSTree.mk nm m tm none (some e) cs re) P =
      ⟨some (Node.mk nm m.device m.inode m.size m.mode [] 0),
        (add_to_pool P (m.device, m.inode)).2,
        [handle_opendir_error e (malloc_path_join d nm)],
        if (add_to_pool P (m.device, m.inode)).1 then m.size else 0⟩ := by
  push_neg at hnm
  have hb1 : (nm == ".") = false := beq_eq_false_iff_ne.2 hnm.1
  have hb2 : (nm == "..") = false := beq_eq_false_iff_ne.2 hnm.2
  unfold crawl_entry
  simp only [FSTree.entryName_mk, FSTree.statErr_mk, hb1, hb2, Bool.or_self, Bool.false_eq_true,
    if_false]
  simp only [lstatMeta, FSTree.meta_mk, is_dir, Node.mode_mk, hdir, if_true]
  simp only [crawl_tree]
  simp [hdir]

/-- Processing a directory entry that opens as an empty listing: same
node, pool and contribution as the open-failure case, and no report. -/
theorem crawl_entry_emptydir (nm : String) (m : Meta) (tm : Option Meta)
    (P : List (ℕ × ℕ)) (d : String)
    (hdir : S_ISDIR m.mode = true) (hnm : ¬(nm = "." ∨ nm = "..")) :
    crawl_entry d (FSTree.mk nm m tm none none [] none) P =
      ⟨some (Node.mk nm m.device m.inode m.size m.mode [] 0),
        (add_to_pool P (m.device, m.inode)).2, [],
        if (add_to_pool P (m.device, m.inode)).1 then m.size else 0⟩ := by
  push_neg at hnm
  have hb1 : (nm == ".") = false := beq_eq_false_iff_ne.2 hnm.1
  have hb2 : (nm == "..") = false := beq_eq_false_iff_ne.2 hnm.2
  unfold crawl_entry
  simp only [FSTree.entryName_mk, FSTree.statErr_mk, hb1, hb2, Bool.or_self, Bool.false_eq_true,
    if_false]
  simp only [lstatMeta, FSTree.meta_mk, is_dir, Node.mode_mk, hdir, if_true]
  simp only [crawl_tree, crawl_children]
  simp [hdir]

/-- **C7.**  If opening a directory for enumeration fails, an Open error
naming that path is reported, the node keeps an empty child list and
aggregate size 0 while still being registered and contributing its own
stat size (first conjunct), and the rest of the run is *exactly* what it
would have been had the directory opened as an empty listing — same
nodes, same pool, same aggregate contributions for every surrounding
sibling, with only the one Open report inserted into the error stream
(second conjunct): the failure is non-fatal and scoped to that subtree. -/
theorem c7_open_failure_scoped (nm : String) (m : Meta) (tm : Option Meta) (e : ℕ)
    (cs : List FSTree) (re : Option ℕ) (P : List (ℕ × ℕ)) (d : String)
    (hdir : S_ISDIR m.mode = true) (hnm : ¬(nm = "." ∨ nm = "..")) :
    crawl_entry d (FSTree.mk nm m tm none (some e) cs re) P =
      ⟨some (Node.mk nm m.device m.inode m.size m.mode [] 0),
        (add_to_pool P (m.device, m.inode)).2,
        [handle_opendir_error e (malloc_path_join d nm)],
        if (add_to_pool P (m.device, m.inode)).1 then m.size else 0⟩ ∧
    (∀ xs ys : List FSTree, ∃ E1 E2 : List Report,
      (crawl_children d (xs ++ FSTree.mk nm m tm none (some e) cs re :: ys) P).errs =
        E1 ++ handle_opendir_error e (malloc_path_join d nm) :: E2 ∧
      (crawl_children d (xs ++ FSTree.mk nm m tm none none [] none :: ys) P).errs =
        E1 ++ E2 ∧
      (crawl_children d (xs ++ FSTree.mk nm m tm none (some e) cs re :: ys) P).nodes =
        (crawl_children d (xs ++ FSTree.mk nm m tm none none [] none :: ys) P).nodes ∧
      (crawl_children d (xs ++ FSTree.mk nm m tm none (some e) cs re :: ys) P).pool =
        (crawl_children d (xs ++ FSTree.mk nm m tm none none [] none :: ys) P).pool ∧
      (crawl_children d (xs ++ FSTree.mk nm m tm none (some e) cs re :: ys) P).addSum =
        (crawl_children d (xs ++ FSTree.mk nm m tm none none [] none :: ys) P).addSum) := by
  refine ⟨crawl_entry_openfail nm m tm e cs re P d hdir hnm, ?_⟩
  intro xs ys
  have hof := crawl_entry_openfail nm m tm e cs re (crawl_children d xs P).pool d hdir hnm
  have hoe := crawl_entry_emptydir nm m tm (crawl_children d xs P).pool d hdir hnm
  have hx := crawl_children_append d xs (FSTree.mk nm m tm none (some e) cs re :: ys) P
  have hy := crawl_children_append d xs (FSTree.mk nm m tm none none [] none :: ys) P
  rw [crawl_children_cons, hof] at hx
  rw [crawl_children_cons, hoe] at hy
  refine ⟨(crawl_children d xs P).errs,
    (crawl_children d ys
      (add_to_pool (crawl_children d xs P).pool (m.device, m.inode)).2).errs,
    ?_, ?_, ?_, ?_, ?_⟩ <;> simp only [hx, hy] <;> simp

/-- Witness for C7 at a concrete unreadable directory between two files. -/
theorem c7_open_failure_scoped_witness :
    crawl_entry "p" (FSTree.mk "sub" ⟨1, 2, 0, 0x4000⟩ none none (some 13)
        [FSTree.mk "hidden" ⟨1, 9, 50, 0x8000⟩ none none none [] none] none) [] =
      ⟨some (Node.mk "sub" 1 2 0 0x4000 [] 0), (add_to_pool [] (1, 2)).2,
        [handle_opendir_error 13 (malloc_path_join "p" "sub")],
        if (add_to_pool [] (1, 2)).1 then 0 else 0⟩ ∧
    (∃ E1 E2 : List Report,
      (crawl_children "p" ([FSTree.mk "a" ⟨1, 3, 4, 0x8000⟩ none none none [] none] ++
          FSTree.mk "sub" ⟨1, 2, 0, 0x4000⟩ none none (some 13)
            [FSTree.mk "hidden" ⟨1, 9, 50, 0x8000⟩ none none none [] none] none ::
          [FSTree.mk "b" ⟨1, 4, 6, 0x8000⟩ none none none [] none]) []).errs =
        E1 ++ handle_opendir_error 13 (malloc_path_join "p" "sub") :: E2 ∧
      (crawl_children "p" ([FSTree.mk "a" ⟨1, 3, 4, 0x8000⟩ none none none [] none] ++
          FSTree.mk "sub" ⟨1, 2, 0, 0x4000⟩ none none none [] none ::
          [FSTree.mk "b" ⟨1, 4, 6, 0x8000⟩ none none none [] none]) []).errs = E1 ++ E2 ∧
      (crawl_children "p" ([FSTree.mk "a" ⟨1, 3, 4, 0x8000⟩ none none none [] none] ++
          FSTree.mk "sub" ⟨1, 2, 0, 0x4000⟩ none none (some 13)
            [FSTree.mk "hidden" ⟨1, 9, 50, 0x8000⟩ none none none [] none] none ::
          [FSTree.mk "b" ⟨1, 4, 6, 0x8000⟩ none none none [] none]) []).nodes =
        (crawl_children "p" ([FSTree.mk "a" ⟨1, 3, 4, 0x8000⟩ none none none [] none] ++
          FSTree.mk "sub" ⟨1, 2, 0, 0x4000⟩ none none none [] none ::
          [FSTree.mk "b" ⟨1, 4, 6, 0x8000⟩ none none none [] none]) []).nodes ∧
      (crawl_children "p" ([FSTree.mk "a" ⟨1, 3, 4, 0x8000⟩ none none none [] none] ++
          FSTree.mk "sub" ⟨1, 2, 0, 0x4000⟩ none none (some 13)
            [FSTree.mk "hidden" ⟨1, 9, 50, 0x8000⟩ none none none [] none] none ::
          [FSTree.mk "b" ⟨1, 4, 6, 0x8000⟩ none none none [] none]) []).pool =
        (crawl_children "p" ([FSTree.mk "a" ⟨1, 3, 4, 0x8000⟩ none none none [] none] ++
          FSTree.mk "sub" ⟨1, 2, 0, 0x4000⟩ none none none [] none ::
          [FSTree.mk "b" ⟨1, 4, 6, 0x8000⟩ none none none [] none]) []).pool ∧
      (crawl_children "p" ([FSTree.mk "a" ⟨1, 3, 4, 0x8000⟩ none none none [] none] ++
          FSTree.mk "sub" ⟨1, 2, 0, 0x4000⟩ none none (some 13)
            [FSTree.mk "hidden" ⟨1, 9, 50, 0x8000⟩ none none none [] none] none ::
          [FSTree.mk "b" ⟨1, 4, 6, 0x8000⟩ none none none [] none]) []).addSum =
        (crawl_children "p" ([FSTree.mk "a" ⟨1, 3, 4, 0x8000⟩ none none none [] none] ++
          FSTree.mk "sub" ⟨1, 2, 0, 0x4000⟩ none none none [] none ::
          [FSTree.mk "b" ⟨1, 4, 6, 0x8000⟩ none none none [] none]) []).addSum) :=
  ⟨(c7_open_failure_scoped "sub" ⟨1, 2, 0, 0x4000⟩ none 13
      [FSTree.mk "hidden" ⟨1, 9, 50, 0x8000⟩ none none none [] none] none [] "p"
      (by decide) (by decide)).1,
    (c7_open_failure_scoped "sub" ⟨1, 2, 0, 0x4000⟩ none 13
      [FSTree.mk "hidden" ⟨1, 9, 50, 0x8000⟩ none none none [] none] none [] "p"
      (by decide) (by decide)).2
      [FSTree.mk "a" ⟨1, 3, 4, 0x8000⟩ none none none [] none]
      [FSTree.mk "b" ⟨1, 4, 6, 0x8000⟩ none none none [] none]⟩

/-! ## Claim C9: boring-folder collapse -/

/-- **C9.**  For a directory whose basename is blacklisted and that has at
least one child, the renderer emits exactly two lines — its own size line
(showing `content_size + add_content_size`, the full deduplicated
aggregate) and a single ellipsis line — so none of its descendants is
rendered (first two conjuncts).  Aggregation is untouched by the
blacklist: crawling such an entry whose pair is not in the pool after its
subtree contributes its stat size *plus its full crawled aggregate* to the
parent (third conjunct). -/
theorem c9_boring_collapse :
    (∀ (name : String) (dev ino : ℕ) (csz : ℤ) (mode : ℕ) (c0 : Node) (crest : List Node)
        (add : ℤ) (ind : String), S_ISDIR mode = true → is_boring_folder name = true →
      present_tree_indent (Node.mk name dev ino csz mode (c0 :: crest) add) ind =
        [present_line (Node.mk name dev ino csz mode (c0 :: crest) add) ind,
          ellipsis_line (spaces (ind.length + 2))]) ∧
    (∀ (name : String) (dev ino : ℕ) (csz : ℤ) (mode : ℕ) (ch : List Node) (add : ℤ),
      S_ISDIR mode = true →
      display_size (Node.mk name dev ino csz mode ch add) = csz + add) ∧
    (∀ (nm : String) (m : Meta) (tm : Option Meta) (cs : List FSTree) (re : Option ℕ)
        (P : List (ℕ × ℕ)) (d : String),
      S_ISDIR m.mode = true → is_boring_folder nm = true → ¬(nm = "." ∨ nm = "..") →
      poolMem (crawl_tree (Node.mk nm m.device m.inode m.size m.mode [] 0) P
        (malloc_path_join d nm) (FSTree.mk nm m tm none none cs re)).2.1
        (m.device, m.inode) = false →
      (crawl_entry d (FSTree.mk nm m tm none none cs re) P).contrib =
        m.size + (crawl_tree (Node.mk nm m.device m.inode m.size m.mode [] 0) P
          (malloc_path_join d nm) (FSTree.mk nm m tm none none cs re)).1.add_content_size) := by
  refine ⟨?_, ?_, ?_⟩
  · intro name dev ino csz mode c0 crest add ind hdir hboring
    simp only [present_tree_indent, hdir, List.isEmpty_cons, Bool.not_false, Bool.and_self,
      if_true, hboring]
  · intro name dev ino csz mode ch add hdir
    unfold display_size
    simp [is_dir, hdir]
  · intro nm m tm cs re P d hdir hboring hnm hfresh
    push_neg at hnm
    have hb1 : (nm == ".") = false := beq_eq_false_iff_ne.2 hnm.1
    have hb2 : (nm == "..") = false := beq_eq_false_iff_ne.2 hnm.2
    unfold crawl_entry
    simp only [FSTree.entryName_mk, FSTree.statErr_mk, hb1, hb2, Bool.or_self, Bool.false_eq_true,
      if_false]
    simp only [lstatMeta, FSTree.meta_mk, is_dir, Node.mode_mk, hdir, if_true]
    have hpres := crawl_tree_preserves (Node.mk nm m.device m.inode m.size m.mode [] 0) P
      (malloc_path_join d nm) (FSTree.mk nm m tm none none cs re)
    simp only [Node.device_mk, Node.inode_mk, Node.content_size_mk, Node.mode_mk] at hpres
    obtain ⟨_, hdev, hino, hcsz, hmode⟩ := hpres
    rw [hdev, hino, hcsz, add_to_pool_fst, hfresh]
    simp only [Bool.not_false, if_true, is_dir, hmode, hdir]

/-- Witness for C9 at a concrete `.git` directory holding one file. -/
theorem c9_boring_collapse_witness :
    present_tree_indent (Node.mk ".git" 1 2 0 0x4000 [Node.mk "f" 1 3 7 0x8000 [] 0] 7) "" =
      [present_line (Node.mk ".git" 1 2 0 0x4000 [Node.mk "f" 1 3 7 0x8000 [] 0] 7) "",
        ellipsis_line (spaces 2)] ∧
    display_size (Node.mk ".git" 1 2 0 0x4000 [Node.mk "f" 1 3 7 0x8000 [] 0] 7) = 0 + 7 ∧
    (crawl_entry "p" (FSTree.mk ".git" ⟨1, 2, 0, 0x4000⟩ none none none
        [FSTree.mk "f" ⟨1, 3, 7, 0x8000⟩ none none none [] none] none) []).contrib =
      0 + (crawl_tree (Node.mk ".git" 1 2 0 0x4000 [] 0) []
        (malloc_path_join "p" ".git")
        (FSTree.mk ".git" ⟨1, 2, 0, 0x4000⟩ none none none
          [FSTree.mk "f" ⟨1, 3, 7, 0x8000⟩ none none none [] none]
            none)).1.add_content_size := by
  refine ⟨?_, ?_, ?_⟩
  · exact c9_boring_collapse.1 ".git" 1 2 0 0x4000 (Node.mk "f" 1 3 7 0x8000 [] 0) [] 7 ""
      (by decide) (by decide)
  · exact c9_boring_collapse.2.1 ".git" 1 2 0 0x4000 [Node.mk "f" 1 3 7 0x8000 [] 0] 7
      (by decide)
  · exact c9_boring_collapse.2.2 ".git" ⟨1, 2, 0, 0x4000⟩ none
      [FSTree.mk "f" ⟨1, 3, 7, 0x8000⟩ none none none [] none] none [] "p"
      (by decide) (by decide) (by decide) (by decide)

/-! ## Claim C1: aggregate correctness of the crawl

The crawl is related to the specification-side `specAgg` in three steps:
(1) the pool after any crawl call is the fold of the registration list
(`crawl_pool_trio`); (2) pool lookups along the crawl coincide with plain
membership in the list of previously encountered pairs (`PoolRep`); (3)
the accumulated `add_content_size` equals the specified aggregate
(`crawl_add_trio`).  The inductions run on `sizeOf`, mirroring the crawl's
mutual recursion. -/

theorem FSTree.sizeOf_pos : ∀ t : FSTree, 0 < sizeOf t := fun t => by
  cases t
  simp_arith

theorem FSTree.list_sizeOf_pos : ∀ cs : List FSTree, 0 < sizeOf cs := fun cs => by
  cases cs <;> simp_arith

theorem regFold_singleton (P : List (ℕ × ℕ)) (x : ℕ × ℕ) :
    regFold P [x] = (add_to_pool P x).2 := rfl

theorem entryRegs_dot (n : String) (m : Meta) (tm : Option Meta) (se : Option ℕ)
    (oe : Option ℕ) (cs : List FSTree) (re : Option ℕ)
    (hg : (n == "." || n == "..") = true) :
    entryRegs (FSTree.mk n m tm se oe cs re) = [] := by
  unfold entryRegs
  rw [if_pos hg]

theorem entryRegs_statErr (n : String) (m : Meta) (tm : Option Meta) (e : ℕ)
    (oe : Option ℕ) (cs : List FSTree) (re : Option ℕ)
    (hg : (n == "." || n == "..") = false) :
    entryRegs (FSTree.mk n m tm (some e) oe cs re) = [] := by
  unfold entryRegs
  rw [hg]
  simp

theorem entryRegs_eq (n : String) (m : Meta) (tm : Option Meta) (oe : Option ℕ)
    (cs : List FSTree) (re : Option ℕ) (hg : (n == "." || n == "..") = false) :
    entryRegs (FSTree.mk n m tm none oe cs re) =
      (if S_ISDIR m.mode then dirRegs (FSTree.mk n m tm none oe cs re) else []) ++
        [(m.device, m.inode)] := by
  cases oe <;> · unfold entryRegs dirRegs
                 rw [hg]
                 simp

/-- The pool returned by any crawl call is the initial pool folded over
the corresponding registration list. -/
theorem crawl_pool_trio : ∀ N : ℕ,
    (∀ t : FSTree, sizeOf t ≤ N → ∀ (root : Node) (P : List (ℕ × ℕ)) (d : String),
      (crawl_tree root P d t).2.1 = regFold P (dirRegs t)) ∧
    (∀ c : FSTree, sizeOf c ≤ N → ∀ (P : List (ℕ × ℕ)) (d : String),
      (crawl_entry d c P).pool = regFold P (entryRegs c)) ∧
    (∀ cs : List FSTree, sizeOf cs ≤ N → ∀ (P : List (ℕ × ℕ)) (d : String),
      (crawl_children d cs P).pool = regFold P (listRegs cs)) := by
  intro N
  induction N with
  | zero =>
    refine ⟨fun t ht => absurd ht (by have := FSTree.sizeOf_pos t; omega),
      fun c hc => absurd hc (by have := FSTree.sizeOf_pos c; omega),
      fun cs hcs => absurd hcs (by have := FSTree.list_sizeOf_pos cs; omega)⟩
  | succ N ih =>
    obtain ⟨ihT, ihE, ihC⟩ := ih
    have hT : ∀ t : FSTree, sizeOf t ≤ N + 1 → ∀ root P d,
        (crawl_tree root P d t).2.1 = regFold P (dirRegs t) := by
      intro t ht root P d
      cases t with
      | mk n m tm se oe cs re =>
        cases oe with
        | some e => simp [crawl_tree, dirRegs, regFold]
        | none =>
          have hszt := FSTree.mk.sizeOf_spec n m tm se none cs re
          have hcs : sizeOf cs ≤ N := by omega
          simp only [crawl_tree, dirRegs]
          exact ihC cs hcs P d
    have hE : ∀ c : FSTree, sizeOf c ≤ N + 1 → ∀ P d,
        (crawl_entry d c P).pool = regFold P (entryRegs c) := by
      intro c hc P d
      cases c with
      | mk n m tm se oe cs re =>
        by_cases hg : (n == "." || n == "..") = true
        · rw [entryRegs_dot n m tm se oe cs re hg]
          unfold crawl_entry
          simp [hg, regFold]
        · simp only [Bool.not_eq_true] at hg
          cases se with
          | some e =>
            rw [entryRegs_statErr n m tm e oe cs re hg]
            unfold crawl_entry
            simp [hg, regFold]
          | none =>
            rw [entryRegs_eq n m tm oe cs re hg, regFold_append, regFold_singleton]
            unfold crawl_entry
            simp only [FSTree.entryName_mk, FSTree.statErr_mk, hg, Bool.false_eq_true, if_false]
            simp only [lstatMeta, FSTree.meta_mk, is_dir, Node.mode_mk]
            by_cases hd : S_ISDIR m.mode = true
            · simp only [hd, if_true]
              have hpres := crawl_tree_preserves
                (Node.mk n m.device m.inode m.size m.mode [] 0) P (malloc_path_join d n)
                (FSTree.mk n m tm none oe cs re)
              simp only [Node.device_mk, Node.inode_mk] at hpres
              rw [hpres.2.1, hpres.2.2.1,
                hT (FSTree.mk n m tm none oe cs re) hc
                  (Node.mk n m.device m.inode m.size m.mode [] 0) P (malloc_path_join d n)]
            · simp only [Bool.not_eq_true] at hd
              simp [hd, regFold]
    have hC : ∀ cs : List FSTree, sizeOf cs ≤ N + 1 → ∀ P d,
        (crawl_children d cs P).pool = regFold P (listRegs cs) := by
      intro cs hcs P d
      cases cs with
      | nil => simp [crawl_children, listRegs, regFold]
      | cons c rest =>
        have hszl := List.cons.sizeOf_spec c rest
        have hc : sizeOf c ≤ N + 1 := by omega
        have hrest : sizeOf rest ≤ N := by omega
        rw [crawl_children_cons]
        simp only []
        rw [ihC rest hrest, hE c hc P d]
        show regFold (regFold P (entryRegs c)) (listRegs rest) =
          regFold P (listRegs (c :: rest))
        rw [← regFold_append]
        rfl
    exact ⟨hT, hE, hC⟩

theorem crawl_tree_pool (t : FSTree) (root : Node) (P : List (ℕ × ℕ)) (d : String) :
    (crawl_tree root P d t).2.1 = regFold P (dirRegs t) :=
  (crawl_pool_trio (sizeOf t)).1 t (le_refl _) root P d

theorem crawl_entry_pool (c : FSTree) (P : List (ℕ × ℕ)) (d : String) :
    (crawl_entry d c P).pool = regFold P (entryRegs c) :=
  (crawl_pool_trio (sizeOf c)).2.1 c (le_refl _) P d

theorem crawl_children_pool (cs : List FSTree) (P : List (ℕ × ℕ)) (d : String) :
    (crawl_children d cs P).pool = regFold P (listRegs cs) :=
  (crawl_pool_trio (sizeOf cs)).2.2 cs (le_refl _) P d

/-- The pool `P` looks up (for bounded keys) exactly like the plain list
`B` of previously encountered pairs. -/
def PoolRep (P B : List (ℕ × ℕ)) : Prop :=
  ∀ k, BoundedPair k → (poolMem P k = true ↔ k ∈ B)

theorem PoolRep_of_bounded {P : List (ℕ × ℕ)} (hP : ∀ p ∈ P, BoundedPair p) :
    PoolRep P P :=
  fun _ hk => poolMem_iff_mem hP hk

theorem PoolRep_extend {P B : List (ℕ × ℕ)} (h : PoolRep P B) (rs : List (ℕ × ℕ))
    (hrs : ∀ p ∈ rs, BoundedPair p) : PoolRep (regFold P rs) (B ++ rs) := by
  intro k hk
  rw [poolMem_regFold, List.mem_append, Bool.or_eq_true, List.any_eq_true]
  constructor
  · rintro (hp | ⟨r, hr, he⟩)
    · exact Or.inl ((h k hk).1 hp)
    · exact Or.inr ((idEq_eq_iff hk (hrs r hr)).1 he ▸ hr)
  · rintro (hp | hr)
    · exact Or.inl ((h k hk).2 hp)
    · exact Or.inr ⟨k, hr, (idEq_eq_iff hk hk).2 rfl⟩

theorem specContrib_eq (n : String) (m : Meta) (tm : Option Meta) (oe : Option ℕ)
    (cs : List FSTree) (re : Option ℕ) (B : List (ℕ × ℕ))
    (hg : (n == "." || n == "..") = false) :
    specContrib (FSTree.mk n m tm none oe cs re) B =
      if (m.device, m.inode) ∈
          B ++ (if S_ISDIR m.mode then dirRegs (FSTree.mk n m tm none oe cs re) else [])
        then 0
        else m.size +
          (if S_ISDIR m.mode then specAgg (FSTree.mk n m tm none oe cs re) B else 0) := by
  cases oe <;> · unfold specContrib specAgg dirRegs
                 rw [hg]
                 simp

/-- The aggregate accumulated by any crawl call equals the specified
aggregate relative to the previously encountered pairs. -/
theorem crawl_add_trio : ∀ N : ℕ,
    (∀ t : FSTree, sizeOf t ≤ N →
      ∀ (root : Node) (P B : List (ℕ × ℕ)) (d : String), PoolRep P B →
        (∀ p ∈ dirRegs t, BoundedPair p) →
        (crawl_tree root P d t).1.add_content_size =
          root.add_content_size + specAgg t B) ∧
    (∀ c : FSTree, sizeOf c ≤ N →
      ∀ (P B : List (ℕ × ℕ)) (d : String), PoolRep P B →
        (∀ p ∈ entryRegs c, BoundedPair p) →
        (crawl_entry d c P).contrib = specContrib c B) ∧
    (∀ cs : List FSTree, sizeOf cs ≤ N →
      ∀ (P B : List (ℕ × ℕ)) (d : String), PoolRep P B →
        (∀ p ∈ listRegs cs, BoundedPair p) →
        (crawl_children d cs P).addSum = specAggList cs B) := by
  intro N
  induction N with
  | zero =>
    refine ⟨fun t ht => absurd ht (by have := FSTree.sizeOf_pos t; omega),
      fun c hc => absurd hc (by have := FSTree.sizeOf_pos c; omega),
      fun cs hcs => absurd hcs (by have := FSTree.list_sizeOf_pos cs; omega)⟩
  | succ N ih =>
    obtain ⟨ihT, ihE, ihC⟩ := ih
    have hT : ∀ t : FSTree, sizeOf t ≤ N + 1 →
        ∀ root P B d, PoolRep P B → (∀ p ∈ dirRegs t, BoundedPair p) →
        (crawl_tree root P d t).1.add_content_size =
          root.add_content_size + specAgg t B := by
      intro t ht root P B d hrep hb
      cases t with
      | mk n m tm se oe cs re =>
        cases oe with
        | some e => simp [crawl_tree, specAgg]
        | none =>
          have hszt := FSTree.mk.sizeOf_spec n m tm se none cs re
          have hcs : sizeOf cs ≤ N := by omega
          simp only [crawl_tree, specAgg, Node.add_content_size_mk]
          rw [ihC cs hcs P B d hrep (by simpa [dirRegs] using hb)]
    have hE : ∀ c : FSTree, sizeOf c ≤ N + 1 →
        ∀ P B d, PoolRep P B → (∀ p ∈ entryRegs c, BoundedPair p) →
        (crawl_entry d c P).contrib = specContrib c B := by
      intro c hc P B d hrep hb
      cases c with
      | mk n m tm se oe cs re =>
        by_cases hg : (n == "." || n == "..") = true
        · unfold crawl_entry specContrib
          simp [hg]
        · simp only [Bool.not_eq_true] at hg
          cases se with
          | some e =>
            unfold crawl_entry specContrib
            simp [hg]
          | none =>
            rw [entryRegs_eq n m tm oe cs re hg] at hb
            have hbp : BoundedPair (m.device, m.inode) :=
              hb _ (List.mem_append.2 (Or.inr (List.mem_singleton.2 rfl)))
            unfold crawl_entry
            simp only [FSTree.entryName_mk, FSTree.statErr_mk, hg, Bool.false_eq_true, if_false]
            simp only [lstatMeta, FSTree.meta_mk, is_dir, Node.mode_mk]
            by_cases hd : S_ISDIR m.mode = true
            · have hspec : specContrib (FSTree.mk n m tm none oe cs re) B =
                  if (m.device, m.inode) ∈ B ++ dirRegs (FSTree.mk n m tm none oe cs re)
                    then 0
                    else m.size + specAgg (FSTree.mk n m tm none oe cs re) B := by
                rw [specContrib_eq n m tm oe cs re B hg]
                simp [hd]
              rw [hspec]
              simp only [hd, if_true]
              have hpres := crawl_tree_preserves
                (Node.mk n m.device m.inode m.size m.mode [] 0) P (malloc_path_join d n)
                (FSTree.mk n m tm none oe cs re)
              simp only [Node.device_mk, Node.inode_mk, Node.content_size_mk,
                Node.mode_mk] at hpres
              obtain ⟨_, hdev, hino, hcsz, hmode⟩ := hpres
              rw [hdev, hino, hcsz, add_to_pool_fst, crawl_tree_pool]
              have hbregs : ∀ p ∈ dirRegs (FSTree.mk n m tm none oe cs re), BoundedPair p := by
                intro p hp
                refine hb p (List.mem_append.2 (Or.inl ?_))
                rw [if_pos hd]
                exact hp
              have hrep' := PoolRep_extend hrep
                (dirRegs (FSTree.mk n m tm none oe cs re)) hbregs
              have hmem := hrep' (m.device, m.inode) hbp
              have hadd : (crawl_tree (Node.mk n m.device m.inode m.size m.mode [] 0) P
                  (malloc_path_join d n)
                  (FSTree.mk n m tm none oe cs re)).1.add_content_size =
                  0 + specAgg (FSTree.mk n m tm none oe cs re) B := by
                have hres := hT (FSTree.mk n m tm none oe cs re) hc
                  (Node.mk n m.device m.inode m.size m.mode [] 0) P B
                  (malloc_path_join d n) hrep hbregs
                simpa using hres
              by_cases hin : (m.device, m.inode) ∈
                  B ++ dirRegs (FSTree.mk n m tm none oe cs re)
              · have hmm : poolMem (regFold P (dirRegs (FSTree.mk n m tm none oe cs re)))
                    (m.device, m.inode) = true := hmem.2 hin
                rw [hmm, if_pos hin]
                simp
              · have hmm : poolMem (regFold P (dirRegs (FSTree.mk n m tm none oe cs re)))
                    (m.device, m.inode) = false := by
                  rcases Bool.eq_false_or_eq_true (poolMem
                    (regFold P (dirRegs (FSTree.mk n m tm none oe cs re)))
                    (m.device, m.inode)) with h | h
                  · exact absurd (hmem.1 h) hin
                  · exact h
                rw [hmm, if_neg hin]
                simp only [Bool.not_false, if_true, is_dir, hmode, hd, hadd]
                omega
            · simp only [Bool.not_eq_true] at hd
              have hspec : specContrib (FSTree.mk n m tm none oe cs re) B =
                  if (m.device, m.inode) ∈ B then 0 else m.size := by
                rw [specContrib_eq n m tm oe cs re B hg]
                simp [hd]
              rw [hspec]
              simp only [hd, Bool.false_eq_true, if_false]
              simp only [Node.device_mk, Node.inode_mk, Node.content_size_mk, Node.mode_mk,
                Node.add_content_size_mk]
              rw [add_to_pool_fst]
              have hmem := hrep (m.device, m.inode) hbp
              by_cases hin : (m.device, m.inode) ∈ B
              · rw [hmem.2 hin, if_pos hin]
                simp
              · have hmm : poolMem P (m.device, m.inode) = false := by
                  rcases Bool.eq_false_or_eq_true (poolMem P (m.device, m.inode)) with h | h
                  · exact absurd (hmem.1 h) hin
                  · exact h
                rw [hmm, if_neg hin]
                simp [is_dir, hd]
    have hC : ∀ cs : List FSTree, sizeOf cs ≤ N + 1 →
        ∀ P B d, PoolRep P B → (∀ p ∈ listRegs cs, BoundedPair p) →
        (crawl_children d cs P).addSum = specAggList cs B := by
      intro cs hcs P B d hrep hb
      cases cs with
      | nil => simp [crawl_children, specAggList]
      | cons c rest =>
        have hszl := List.cons.sizeOf_spec c rest
        have hc : sizeOf c ≤ N + 1 := by omega
        have hrest : sizeOf rest ≤ N := by omega
        have hbc : ∀ p ∈ entryRegs c, BoundedPair p := by
          intro p hp
          exact hb p (by unfold listRegs; exact List.mem_append.2 (Or.inl hp))
        have hbrest : ∀ p ∈ listRegs rest, BoundedPair p := by
          intro p hp
          exact hb p (by unfold listRegs; exact List.mem_append.2 (Or.inr hp))
        rw [crawl_children_cons]
        simp only []
        show (crawl_entry d c P).contrib +
            (crawl_children d rest (crawl_entry d c P).pool).addSum =
          specAggList (c :: rest) B
        unfold specAggList
        rw [hE c hc P B d hrep hbc, crawl_entry_pool,
          ihC rest hrest (regFold P (entryRegs c)) (B ++ entryRegs c) d
            (PoolRep_extend hrep (entryRegs c) hbc) hbrest]
    exact ⟨hT, hE, hC⟩

/-- Entries that are not `.`/`..` and stat successfully always yield a
node carrying the entry's name. -/
theorem crawl_entry_res_name (n : String) (m : Meta) (tm : Option Meta) (oe : Option ℕ)
    (cs : List FSTree) (re : Option ℕ) (P : List (ℕ × ℕ)) (d : String)
    (hg : (n == "." || n == "..") = false) :
    ∃ node1 : Node, (crawl_entry d (FSTree.mk n m tm none oe cs re) P).res = some node1 ∧
      node1.name = n := by
  unfold crawl_entry
  simp only [FSTree.entryName_mk, FSTree.statErr_mk, hg, Bool.false_eq_true, if_false]
  refine ⟨_, rfl, ?_⟩
  split_ifs with hd
  · have hpres := crawl_tree_preserves
      (Node.mk n (lstatMeta (FSTree.mk n m tm none oe cs re)).device
        (lstatMeta (FSTree.mk n m tm none oe cs re)).inode
        (lstatMeta (FSTree.mk n m tm none oe cs re)).size
        (lstatMeta (FSTree.mk n m tm none oe cs re)).mode [] 0) P
      (malloc_path_join d n) (FSTree.mk n m tm none oe cs re)
    simpa using hpres.1
  · simp

/-- The names of the nodes collected by the enumeration loop are exactly
the names of the surviving entries, in enumeration order. -/
theorem crawl_children_names : ∀ (cs : List FSTree) (d : String) (P : List (ℕ × ℕ)),
    (crawl_children d cs P).nodes.map Node.name = okNames cs
  | [], _, _ => rfl
  | c :: rest, d, P => by
    rw [crawl_children_cons]
    cases c with
    | mk n m tm se oe cs' re =>
      by_cases hg : (n == "." || n == "..") = true
      · have he : crawl_entry d (FSTree.mk n m tm se oe cs' re) P = ⟨none, P, [], 0⟩ := by
          unfold crawl_entry
          simp [hg]
        rw [he]
        unfold okNames
        simp only [FSTree.entryName_mk]
        rw [hg]
        simpa using crawl_children_names rest d P
      · simp only [Bool.not_eq_true] at hg
        cases se with
        | some e =>
          have he : crawl_entry d (FSTree.mk n m tm (some e) oe cs' re) P =
              ⟨none, P, [handle_stat_error e d n], 0⟩ := by
            unfold crawl_entry
            simp [hg]
          rw [he]
          unfold okNames
          simp only [FSTree.entryName_mk]
          rw [hg]
          simpa using crawl_children_names rest d P
        | none =>
          obtain ⟨node1, hres, hname⟩ := crawl_entry_res_name n m tm oe cs' re P d hg
          rw [hres]
          unfold okNames
          simp only [FSTree.entryName_mk]
          rw [hg]
          simp only [Bool.false_eq_true, if_false, List.map_cons, hname,
            List.singleton_append]
          rw [crawl_children_names rest d _]

/-- **C1 (amended).**  For every directory crawl (hence for every
directory node of the output tree: each such node is produced by exactly
one recursive `crawl_tree` call on its own subtree, with the pool `P` of
previously encountered pairs), provided all device and inode values
involved are below `2 ^ 32` (so the truncating comparator distinguishes
exactly the distinct pairs — without this the claim fails, see the
counterexample), the accumulated `add_content_size` equals the
specification's aggregate `specAgg`: the sum over the directory's
children of `content_size` (plus the nested aggregate for
subdirectories), counting a child only when its (device, inode) pair is
distinct from every pair encountered earlier in crawl order — a child
whose pair was already registered contributes nothing (and, by the second
conjunct, still appears in the tree: the crawled children are exactly the
surviving entries regardless of deduplication).  The directory's own size
is not part of its aggregate. -/
theorem c1_aggregate_correct (t : FSTree) (P : List (ℕ × ℕ)) (root : Node) (d : String)
    (hP : ∀ p ∈ P, BoundedPair p) (ht : ∀ p ∈ dirRegs t, BoundedPair p)
    (hc : root.child = []) :
    (crawl_tree root P d t).1.add_content_size = root.add_content_size + specAgg t P ∧
    (t.openErr = none →
      ((crawl_tree root P d t).1.child.map Node.name).Perm (okNames t.children)) := by
  constructor
  · exact (crawl_add_trio (sizeOf t)).1 t (le_refl _) root P P d (PoolRep_of_bounded hP) ht
  · intro hoe
    cases t with
    | mk n m tm se oe cs re =>
      simp only [FSTree.openErr_mk] at hoe
      subst hoe
      simp only [crawl_tree, FSTree.children_mk]
      have hnames := crawl_children_names cs d P
      cases hn : (crawl_children d cs P).nodes with
      | nil =>
        rw [hn] at hnames
        simp only [List.map_nil] at hnames
        simp only [Node.child_mk, hc, List.map_nil]
        rw [← hnames]
      | cons x xs =>
        rw [hn] at hnames
        simp only [Node.child_mk]
        have hperm : (sort_siblings (x :: xs)).Perm (x :: xs) := List.mergeSort_perm _ _
        have hmap := hperm.map Node.name
        rw [hnames] at hmap
        exact hmap

/-- Witness for C1: the spec's Scenario A — a root holding `a.txt`
(5 bytes) and `sub/` containing `x` (10 bytes) and a hard link `y` to the
same (device, inode): the deduplicated aggregate is 15, not 25, and all
four entries stay in the tree. -/
theorem c1_aggregate_correct_witness :
    (crawl_tree (Node.mk "." 1 1 0 0x4000 [] 0) [] "p"
        (FSTree.mk "r" ⟨1, 1, 0, 0x4000⟩ none none none
          [FSTree.mk "a.txt" ⟨1, 10, 5, 0x8000⟩ none none none [] none,
            FSTree.mk "sub" ⟨1, 20, 0, 0x4000⟩ none none none
              [FSTree.mk "x" ⟨1, 30, 10, 0x8000⟩ none none none [] none,
                FSTree.mk "y" ⟨1, 30, 10, 0x8000⟩ none none none [] none] none]
          none)).1.add_content_size =
      (Node.mk "." 1 1 0 0x4000 [] 0).add_content_size +
        specAgg (FSTree.mk "r" ⟨1, 1, 0, 0x4000⟩ none none none
          [FSTree.mk "a.txt" ⟨1, 10, 5, 0x8000⟩ none none none [] none,
            FSTree.mk "sub" ⟨1, 20, 0, 0x4000⟩ none none none
              [FSTree.mk "x" ⟨1, 30, 10, 0x8000⟩ none none none [] none,
                FSTree.mk "y" ⟨1, 30, 10, 0x8000⟩ none none none [] none] none] none) [] ∧
    specAgg (FSTree.mk "r" ⟨1, 1, 0, 0x4000⟩ none none none
      [FSTree.mk "a.txt" ⟨1, 10, 5, 0x8000⟩ none none none [] none,
        FSTree.mk "sub" ⟨1, 20, 0, 0x4000⟩ none none none
          [FSTree.mk "x" ⟨1, 30, 10, 0x8000⟩ none none none [] none,
            FSTree.mk "y" ⟨1, 30, 10, 0x8000⟩ none none none [] none] none] none) [] = 15 ∧
    ((crawl_tree (Node.mk "." 1 1 0 0x4000 [] 0) [] "p"
        (FSTree.mk "r" ⟨1, 1, 0, 0x4000⟩ none none none
          [FSTree.mk "a.txt" ⟨1, 10, 5, 0x8000⟩ none none none [] none,
            FSTree.mk "sub" ⟨1, 20, 0, 0x4000⟩ none none none
              [FSTree.mk "x" ⟨1, 30, 10, 0x8000⟩ none none none [] none,
                FSTree.mk "y" ⟨1, 30, 10, 0x8000⟩ none none none [] none] none]
          none)).1.child.map Node.name).Perm ["a.txt", "sub"] :=
  ⟨(c1_aggregate_correct _ [] (Node.mk "." 1 1 0 0x4000 [] 0) "p"
      (by decide) (by decide) rfl).1,
    by decide,
    (c1_aggregate_correct _ [] (Node.mk "." 1 1 0 0x4000 [] 0) "p"
      (by decide) (by decide) rfl).2 rfl⟩

/-- **C1 (counterexample).**  Two sibling files with the *distinct* pairs
`(0, 0)` and `(2 ^ 32, 0)` (sizes 5 and 7): the claim's sum over
descendants with distinct pairs is 12, but the crawl's truncating
comparator conflates the two pairs and the aggregate comes out as 5 — so
the claim, read over arbitrary device and inode values, fails. -/
theorem c1_counterexample :
    (crawl_tree (Node.mk "." 1 1 0 0x4000 [] 0) [] "p"
        (FSTree.mk "r" ⟨1, 1, 0, 0x4000⟩ none none none
          [FSTree.mk "u" ⟨0, 0, 5, 0x8000⟩ none none none [] none,
            FSTree.mk "v" ⟨2 ^ 32, 0, 7, 0x8000⟩ none none none [] none]
          none)).1.add_content_size = 5 ∧
    specAgg (FSTree.mk "r" ⟨1, 1, 0, 0x4000⟩ none none none
      [FSTree.mk "u" ⟨0, 0, 5, 0x8000⟩ none none none [] none,
        FSTree.mk "v" ⟨2 ^ 32, 0, 7, 0x8000⟩ none none none [] none] none) [] = 12 ∧
    ((0, 0) : ℕ × ℕ) ≠ ((2 ^ 32 : ℕ), (0 : ℕ)) := by
  refine ⟨by decide, by decide, by decide⟩

end Ckdu
